import Mathlib

/-!
Shallow embedding of the cockroachload workload generator (src/load/load.go).

The relational store (database `testdb`) is modelled as a `Store` value holding
the five tables as lists of rows in insertion order; the surrogate key
generator (`unique_rowid()`) is a single counter `nextId` shared by all
tables.  Each `crdb.ExecuteTx` body in the Go source becomes a function
`Store → Except DBError Store`: the `.ok` result is the committed state, an
`.error` result models a transaction that aborts (its effects rolled back, so
the caller keeps the previous state).  SQL `LIKE` with a wildcard-free
pattern is exact string equality; `QueryRow` returns the first matching row in
insertion order; unique indexes from the schema reject conflicting inserts
(`NULL` values never conflict, as in SQL).
-/

/-- One row of the `users` table (id, uid, passwordhash, utype, description,
is_remote). -/
structure UserRow where
  id : Nat
  uid : String
  passwordhash : String
  utype : String
  description : String
  is_remote : Bool
deriving DecidableEq, Repr

/-- One row of the `groups` table. -/
structure GroupRow where
  id : Nat
  gid : String
  description : String
deriving DecidableEq, Repr

/-- One row of the `resources` table. -/
structure ResourceRow where
  id : Nat
  rid : String
  description : String
deriving DecidableEq, Repr

/-- One row of the `user_groups` membership table. -/
structure MembershipRow where
  user_id : Nat
  group_id : Nat
deriving DecidableEq, Repr

/-- One row of the `aces` table; `user_id`, `group_id` and `resource_id` are
nullable columns. -/
structure AceRow where
  id : Nat
  user_id : Option Nat
  group_id : Option Nat
  resource_id : Option Nat
  actions : String
deriving DecidableEq, Repr

/-- The whole store: the five tables plus the surrogate-key counter. -/
structure Store where
  users : List UserRow
  groups : List GroupRow
  resources : List ResourceRow
  user_groups : List MembershipRow
  aces : List AceRow
  nextId : Nat
deriving DecidableEq, Repr

/-- The freshly created database: all tables empty. -/
def emptyStore : Store := ⟨[], [], [], [], [], 0⟩

/-- Errors a transaction body can surface: `noRows` is `sql.ErrNoRows` from a
required lookup, `uniqueViolation` is a unique-index conflict on insert,
`divByZero` models the Go runtime panic `integer divide by zero`, and
`notSane` models the `panic` guarding `prepareData`. -/
inductive DBError where
  | noRows
  | uniqueViolation
  | divByZero
  | notSane
deriving DecidableEq, Repr

/-- The record-count tuple: `recordCount` from the source, one field per
`RecordType` (Users, Groups, Members, UserPermissions, GroupPermissions). -/
structure recordCount where
  users : Nat
  groups : Nat
  members : Nat
  userPermissions : Nat
  groupPermissions : Nat
deriving DecidableEq, Repr

/-- `recordCount.sane` from the source: the Sanity Validator. -/
def recordCount.sane (c : recordCount) : Bool :=
  if c.members > 0 && c.groups == 0 then false
  else if c.members > 0 && c.users == 0 then false
  else if c.members > c.users then false
  else if c.userPermissions > 0 && c.users == 0 then false
  else if c.groupPermissions > 0 && c.groups == 0 then false
  else true

/-- `recordCountForIteration` from the source; `LastRecordType = 5`, the bit
loop is unrolled (bit 0 = Users, bit 1 = Groups, bit 2 = Members,
bit 3 = UserPermissions, bit 4 = GroupPermissions). -/
def recordCountForIteration (iteration : Nat) : recordCount :=
  let baseline := iteration >>> 5
  if baseline = iteration then
    -- This overflow scenario was already handled by the last iteration
    ⟨0, 0, 0, 0, 0⟩
  else
    { users := baseline * 20 + (if iteration &&& (1 <<< 0) ≠ 0 then 20 else 0)
      groups := baseline * 20 + (if iteration &&& (1 <<< 1) ≠ 0 then 20 else 0)
      members := baseline * 20 + (if iteration &&& (1 <<< 2) ≠ 0 then 20 else 0)
      userPermissions := baseline * 20 + (if iteration &&& (1 <<< 3) ≠ 0 then 20 else 0)
      groupPermissions := baseline * 20 + (if iteration &&& (1 <<< 4) ≠ 0 then 20 else 0) }

/-- Runs the body of one `for` loop iteration after another, committing each
transaction's state before the next; the first error aborts the rest, the
caller keeping the last committed state.  (The shape of every `for ... if err
:= ...; err != nil { return err }` loop in the source.) -/
def txFold (f : Store → α → Except DBError Store) : List α → Store → Except DBError Store
  | [], st => .ok st
  | x :: xs, st =>
    match f st x with
    | .error e => .error e
    | .ok st1 => txFold f xs st1

/-- The fixed `passwordhash` literal inserted for every user. -/
def phash : String :=
  "$6$rounds=656000$WZdTPdpxUZsDG5PG$6om6ApIm5l5639JNAUmtFD87cIXdWCAVKeJ4zNlhmPKWT3PARF6Ai.HpcjR8SPQSQnqoefBiLaZmPuMFhGhpm0"

/-- `addUser`: one transaction inserting a single user row with business key
`strconv.Itoa userid`; the unique index `users_uid_key` rejects a duplicate
uid. -/
def addUser (st : Store) (userid : Nat) : Except DBError Store :=
  let uid := Nat.repr userid
  if st.users.any (fun u => u.uid == uid) then .error .uniqueViolation
  else .ok { st with
    users := st.users ++ [⟨st.nextId, uid, phash, "regular", "some description", false⟩],
    nextId := st.nextId + 1 }

/-- `addUsers`: adds users with ordinals `0 .. users-1`, one transaction
each. -/
def addUsers (st : Store) (users : Nat) : Except DBError Store :=
  txFold (fun s ii => addUser s ii) (List.range users) st

/-- `addGroup`: one transaction inserting a single group row. -/
def addGroup (st : Store) (groupid : Nat) : Except DBError Store :=
  let gid := Nat.repr groupid
  if st.groups.any (fun g => g.gid == gid) then .error .uniqueViolation
  else .ok { st with
    groups := st.groups ++ [⟨st.nextId, gid, "some description"⟩],
    nextId := st.nextId + 1 }

/-- `addGroups`: adds groups with ordinals `0 .. groups-1`. -/
def addGroups (st : Store) (groups : Nat) : Except DBError Store :=
  txFold (fun s ii => addGroup s ii) (List.range groups) st

/-- `addResource`: one transaction inserting a single resource row. -/
def addResource (st : Store) (resource : String) : Except DBError Store :=
  if st.resources.any (fun r => r.rid == resource) then .error .uniqueViolation
  else .ok { st with
    resources := st.resources ++ [⟨st.nextId, resource, "some description"⟩],
    nextId := st.nextId + 1 }

/-- `addUserToGroup`: looks both business keys up and inserts one membership
row; the composite primary key rejects a duplicate (user, group) pair. -/
def addUserToGroup (st : Store) (group user : Nat) : Except DBError Store :=
  match st.users.find? (fun u => u.uid == Nat.repr user) with
  | none => .error .noRows
  | some u =>
    match st.groups.find? (fun g => g.gid == Nat.repr group) with
    | none => .error .noRows
    | some g =>
      if st.user_groups.any (fun m => m.user_id == u.id && m.group_id == g.id) then
        .error .uniqueViolation
      else .ok { st with user_groups := st.user_groups ++ [⟨u.id, g.id⟩] }

/-- `assignUsersToGroups` inner loop over the `members` slots of one group,
carrying the running user counter; `user = user % users` panics
(`divByZero`) when `users == 0`. -/
def memberLoop (group users : Nat) : Nat → Store → Nat → Except DBError (Store × Nat)
  | 0, st, user => .ok (st, user)
  | m + 1, st, user =>
    match addUserToGroup st group user with
    | .error e => .error e
    | .ok st1 =>
      if users == 0 then .error .divByZero
      else memberLoop group users m st1 ((user + 1) % users)

/-- `assignUsersToGroups` outer loop over the groups, threading the shared
user counter. -/
def groupLoop (members users : Nat) : List Nat → Store → Nat → Except DBError Store
  | [], st, _ => .ok st
  | g :: gs, st, user =>
    match memberLoop g users members st user with
    | .error e => .error e
    | .ok (st1, user1) => groupLoop members users gs st1 user1

/-- `assignUsersToGroups`: round-robins a single user counter across all
groups' member slots. -/
def assignUsersToGroups (st : Store) (members groups users : Nat) : Except DBError Store :=
  groupLoop members users (List.range groups) st 0

/-- `userResourceName` from the source. -/
def userResourceName (rid : Nat) : String := "user-resource-" ++ Nat.repr rid

/-- `groupResourceName` from the source. -/
def groupResourceName (rid : Nat) : String := "group-resource-" ++ Nat.repr rid

/-- The `WHERE aces.user_id = $1 and aces.resource_id = $2` condition of the
user-path ACE lookup (a SQL `=` against a `NULL` column never matches). -/
def aceMatchUser (uu rr : Nat) (a : AceRow) : Bool :=
  a.user_id == some uu && a.resource_id == some rr

/-- The `WHERE aces.group_id = $1 and aces.resource_id = $2` condition of the
group-path ACE lookup. -/
def aceMatchGroup (gg rr : Nat) (a : AceRow) : Bool :=
  a.group_id == some gg && a.resource_id == some rr

/-- One `crdb.ExecuteTx` body of `allowUserAccessToResource` (one action):
resolve the resource and user keys, look for an existing ACE row for the
(user, resource) pair; on a hit with a non-empty action string append the
action (comma-separated) and update the row by its id, otherwise insert a new
row with the single action (the unique index `user_resource_unique` rejects a
conflicting insert; its `NULL` `group_id` column never conflicts). -/
def allowUserAccessToResourceOnce (st : Store) (resource : String) (uid : Nat)
    (action : String) : Except DBError Store :=
  match st.resources.find? (fun r => r.rid == resource) with
  | none => .error .noRows
  | some r =>
    match st.users.find? (fun u => u.uid == Nat.repr uid) with
    | none => .error .noRows
    | some u =>
      let found := st.aces.find? (aceMatchUser u.id r.id)
      let actionstr := match found with
        | some a => a.actions
        | none => ""
      if actionstr.length > 0 then
        let aceId := (found.map (fun a => a.id)).getD 0
        .ok { st with aces := st.aces.map (fun a =>
          if a.id == aceId then { a with actions := actionstr ++ "," ++ action } else a) }
      else
        if st.aces.any (aceMatchUser u.id r.id) then
          .error .uniqueViolation
        else .ok { st with
          aces := st.aces ++ [⟨st.nextId, some u.id, none, some r.id, action⟩],
          nextId := st.nextId + 1 }

/-- The action list iterated by both upsert paths. -/
def aceActionList : List String := ["create", "read", "update", "delete"]

/-- `allowUserAccessToResource`: one transaction per action, in order. -/
def allowUserAccessToResource (st : Store) (resource : String) (uid : Nat) :
    Except DBError Store :=
  txFold (fun s action => allowUserAccessToResourceOnce s resource uid action) aceActionList st

/-- One `crdb.ExecuteTx` body of `allowGroupAccessToResource` (one action);
mirror image of the user path with `group_id` set and `user_id NULL`. -/
def allowGroupAccessToResourceOnce (st : Store) (resource : String) (gid : Nat)
    (action : String) : Except DBError Store :=
  match st.resources.find? (fun r => r.rid == resource) with
  | none => .error .noRows
  | some r =>
    match st.groups.find? (fun g => g.gid == Nat.repr gid) with
    | none => .error .noRows
    | some g =>
      let found := st.aces.find? (aceMatchGroup g.id r.id)
      let actionstr := match found with
        | some a => a.actions
        | none => ""
      if actionstr.length > 0 then
        let aceId := (found.map (fun a => a.id)).getD 0
        .ok { st with aces := st.aces.map (fun a =>
          if a.id == aceId then { a with actions := actionstr ++ "," ++ action } else a) }
      else
        if st.aces.any (aceMatchGroup g.id r.id) then
          .error .uniqueViolation
        else .ok { st with
          aces := st.aces ++ [⟨st.nextId, none, some g.id, some r.id, action⟩],
          nextId := st.nextId + 1 }

/-- `allowGroupAccessToResource`: one transaction per action, in order. -/
def allowGroupAccessToResource (st : Store) (resource : String) (gid : Nat) :
    Except DBError Store :=
  txFold (fun s action => allowGroupAccessToResourceOnce s resource gid action) aceActionList st

/-- `assignUserPermissions`: per permission ordinal, add the resource then
grant all four actions to every user. -/
def assignUserPermissions (st : Store) (permissions users : Nat) : Except DBError Store :=
  txFold (fun s permission =>
    match addResource s (userResourceName permission) with
    | .error e => .error e
    | .ok s1 =>
      txFold (fun s2 user => allowUserAccessToResource s2 (userResourceName permission) user)
        (List.range users) s1)
    (List.range permissions) st

/-- `assignGroupPermissions`: per permission ordinal, add the resource then
grant all four actions to every group. -/
def assignGroupPermissions (st : Store) (permissions groups : Nat) : Except DBError Store :=
  txFold (fun s permission =>
    match addResource s (groupResourceName permission) with
    | .error e => .error e
    | .ok s1 =>
      txFold (fun s2 group => allowGroupAccessToResource s2 (groupResourceName permission) group)
        (List.range groups) s1)
    (List.range permissions) st

/-- `prepareData`: the load phase in strict order users → groups →
memberships → user-permissions → group-permissions; the leading sanity
`panic` is modelled as the `notSane` error. -/
def prepareData (st : Store) (counts : recordCount) : Except DBError Store :=
  if counts.sane then
    match addUsers st counts.users with
    | .error e => .error e
    | .ok st1 =>
      match addGroups st1 counts.groups with
      | .error e => .error e
      | .ok st2 =>
        match assignUsersToGroups st2 counts.members counts.groups counts.users with
        | .error e => .error e
        | .ok st3 =>
          match assignUserPermissions st3 counts.userPermissions counts.users with
          | .error e => .error e
          | .ok st4 => assignGroupPermissions st4 counts.groupPermissions counts.groups
  else .error .notSane

/-- `removeUser`: one transaction deleting the user's memberships, its
user-principal ACE rows, then the user row itself (SQL `user_id = $1` does
not match a `NULL` `user_id`). -/
def removeUser (st : Store) (uid : String) : Except DBError Store :=
  match st.users.find? (fun u => u.uid == uid) with
  | none => .error .noRows
  | some u =>
    .ok { st with
      user_groups := st.user_groups.filter (fun m => m.user_id != u.id),
      aces := st.aces.filter (fun a => a.user_id != some u.id),
      users := st.users.filter (fun x => x.id != u.id) }

/-- `removeUsers`: `findUsers` lists every stored uid in one transaction,
then the loop removes them one transaction each. -/
def removeUsers (st : Store) : Except DBError Store :=
  txFold (fun s uid => removeUser s uid) (st.users.map (fun u => u.uid)) st

/-- `removeGroup`: one transaction deleting the group's memberships, its
group-principal ACE rows, then the group row itself. -/
def removeGroup (st : Store) (gid : String) : Except DBError Store :=
  match st.groups.find? (fun g => g.gid == gid) with
  | none => .error .noRows
  | some g =>
    .ok { st with
      user_groups := st.user_groups.filter (fun m => m.group_id != g.id),
      aces := st.aces.filter (fun a => a.group_id != some g.id),
      groups := st.groups.filter (fun x => x.id != g.id) }

/-- `removeGroups`: discovery transaction, then one removal per gid. -/
def removeGroups (st : Store) : Except DBError Store :=
  txFold (fun s gid => removeGroup s gid) (st.groups.map (fun g => g.gid)) st

/-- `removeResource`: one transaction deleting the resource's ACE rows then
the resource row itself. -/
def removeResource (st : Store) (rid : String) : Except DBError Store :=
  match st.resources.find? (fun r => r.rid == rid) with
  | none => .error .noRows
  | some r =>
    .ok { st with
      aces := st.aces.filter (fun a => a.resource_id != some r.id),
      resources := st.resources.filter (fun x => x.id != r.id) }

/-- `removeResources`: discovery transaction, then one removal per rid. -/
def removeResources (st : Store) : Except DBError Store :=
  txFold (fun s rid => removeResource s rid) (st.resources.map (fun r => r.rid)) st

/-- `removeData`: the Teardown Orchestrator, users then groups then
resources. -/
def removeData (st : Store) : Except DBError Store :=
  match removeUsers st with
  | .error e => .error e
  | .ok st1 =>
    match removeGroups st1 with
    | .error e => .error e
    | .ok st2 => removeResources st2

/-! ## General list helpers shared by the proofs -/

theorem find?_eq_head?_filter (p : α → Bool) : ∀ l : List α, l.find? p = (l.filter p).head?
  | [] => rfl
  | a :: t => by
    cases h : p a with
    | true => simp [List.find?_cons, List.filter_cons, h]
    | false => simp [List.find?_cons, List.filter_cons, h]

theorem find?_append_left_none (p : α → Bool) (l1 l2 : List α) (h : l1.find? p = none) :
    (l1 ++ l2).find? p = l2.find? p := by
  induction l1 with
  | nil => rfl
  | cons a t ih =>
    cases hpa : p a with
    | true => simp [List.find?_cons, hpa] at h
    | false =>
      rw [List.find?_cons_of_neg _ (by simp [hpa])] at h
      simpa [List.find?_cons, hpa] using ih h

theorem filter_eq_nil_of_any_eq_false {p : α → Bool} {l : List α} (h : l.any p = false) :
    l.filter p = [] :=
  List.filter_eq_nil_iff.mpr (fun x hx => by simpa using List.any_eq_false.mp h x hx)

theorem find?_eq_none_of_filter_eq_nil {p : α → Bool} {l : List α} (h : l.filter p = []) :
    l.find? p = none := by
  rw [find?_eq_head?_filter, h]; rfl

theorem find?_eq_some_of_filter_eq_singleton {p : α → Bool} {l : List α} {a : α}
    (h : l.filter p = [a]) : l.find? p = some a := by
  rw [find?_eq_head?_filter, h]; rfl

/-- Updating only the `actions` column of the row with a given id commutes
with filtering by any predicate that ignores `actions`. -/
theorem filter_map_update_actions (p : AceRow → Bool)
    (hp : ∀ (a : AceRow) (s : String), p { a with actions := s } = p a)
    (aid : Nat) (s : String) (l : List AceRow) :
    (l.map (fun a => if a.id == aid then { a with actions := s } else a)).filter p =
      (l.filter p).map (fun a => if a.id == aid then { a with actions := s } else a) := by
  rw [List.filter_map]
  congr 1
  apply List.filter_congr
  intro a _
  by_cases h : a.id = aid
  · subst h
    simp [hp]
  · simp [h]

theorem aceMatchUser_update_actions (uu rr : Nat) (a : AceRow) (s : String) :
    aceMatchUser uu rr { a with actions := s } = aceMatchUser uu rr a := rfl

theorem aceMatchGroup_update_actions (gg rr : Nat) (a : AceRow) (s : String) :
    aceMatchGroup gg rr { a with actions := s } = aceMatchGroup gg rr a := rfl

/-! ## C4, C5, C9: Iteration Planner and Sanity Validator -/

/-- C4: the Iteration Planner is a pure function — the same counter always
yields the same tuple — and every component of `recordCountForIteration i`
is a (non-negative) multiple of 20. -/
theorem recordCountForIteration_deterministic_and_multiple_of_20 :
    ∀ i j : Nat, i = j →
      recordCountForIteration i = recordCountForIteration j ∧
      20 ∣ (recordCountForIteration i).users ∧
      20 ∣ (recordCountForIteration i).groups ∧
      20 ∣ (recordCountForIteration i).members ∧
      20 ∣ (recordCountForIteration i).userPermissions ∧
      20 ∣ (recordCountForIteration i).groupPermissions := by
  intro i j hij
  subst hij
  refine ⟨rfl, ?_, ?_, ?_, ?_, ?_⟩ <;>
  · by_cases h : i >>> 5 = i
    · simp [recordCountForIteration, h]
    · simp [recordCountForIteration, h]
      exact Nat.dvd_add (dvd_mul_left 20 _) (by split <;> decide)

/-- C4 witness at iteration 7. -/
theorem recordCountForIteration_deterministic_and_multiple_of_20_witness :
    recordCountForIteration 7 = recordCountForIteration 7 ∧
    20 ∣ (recordCountForIteration 7).users ∧
    20 ∣ (recordCountForIteration 7).groups ∧
    20 ∣ (recordCountForIteration 7).members ∧
    20 ∣ (recordCountForIteration 7).userPermissions ∧
    20 ∣ (recordCountForIteration 7).groupPermissions :=
  recordCountForIteration_deterministic_and_multiple_of_20 7 7 rfl

/-- C5: the Sanity Validator rejects members without groups, members without
users, more members-per-group than users, user-permissions without users,
group-permissions without groups, and accepts the all-zero tuple. -/
theorem sane_rejection_rules :
    (∀ c : recordCount, 0 < c.members → c.groups = 0 → c.sane = false) ∧
    (∀ c : recordCount, 0 < c.members → c.users = 0 → c.sane = false) ∧
    (∀ c : recordCount, c.users < c.members → c.sane = false) ∧
    (∀ c : recordCount, 0 < c.userPermissions → c.users = 0 → c.sane = false) ∧
    (∀ c : recordCount, 0 < c.groupPermissions → c.groups = 0 → c.sane = false) ∧
    recordCount.sane ⟨0, 0, 0, 0, 0⟩ = true := by
  refine ⟨?_, ?_, ?_, ?_, ?_, rfl⟩ <;>
  · intro c h1
    first
      | (intro h2
         unfold recordCount.sane
         split_ifs <;> simp_all)
      | (unfold recordCount.sane
         split_ifs <;> simp_all)

/-- C5 witness: the validator rejects {0 users, 0 groups, 1 member, 0, 0}
and accepts the all-zero tuple. -/
theorem sane_rejection_rules_witness :
    recordCount.sane ⟨0, 0, 1, 0, 0⟩ = false ∧ recordCount.sane ⟨0, 0, 0, 0, 0⟩ = true :=
  ⟨sane_rejection_rules.1 ⟨0, 0, 1, 0, 0⟩ (by decide) rfl,
   sane_rejection_rules.2.2.2.2.2⟩

/-- C9: the planner returns the all-zero tuple exactly when
`iteration >>> 5 = iteration` (which over the non-negative counters happens
only at 0); for every other counter each component is `baseline * 20` plus an
extra 20 when the record type's low-order bit is set in the counter. -/
theorem recordCountForIteration_characterization :
    ∀ i : Nat,
      (i >>> 5 = i ↔ i = 0) ∧
      (recordCountForIteration i = ⟨0, 0, 0, 0, 0⟩ ↔ i >>> 5 = i) ∧
      (i >>> 5 ≠ i →
        recordCountForIteration i =
          ⟨(i >>> 5) * 20 + (if i &&& 1 ≠ 0 then 20 else 0),
           (i >>> 5) * 20 + (if i &&& 2 ≠ 0 then 20 else 0),
           (i >>> 5) * 20 + (if i &&& 4 ≠ 0 then 20 else 0),
           (i >>> 5) * 20 + (if i &&& 8 ≠ 0 then 20 else 0),
           (i >>> 5) * 20 + (if i &&& 16 ≠ 0 then 20 else 0)⟩) := by
  intro i
  have hdiv : i >>> 5 = i / 32 := by
    rw [Nat.shiftRight_eq_div_pow]
  have hiff : i >>> 5 = i ↔ i = 0 := by
    rw [hdiv]; omega
  refine ⟨hiff, ?_, ?_⟩
  · constructor
    · intro hz
      by_contra h
      rw [recordCountForIteration] at hz
      simp only [if_neg h] at hz
      have husers := congrArg recordCount.users hz
      simp only at husers
      have hb0 : i >>> 5 = 0 := by omega
      have hlt : i < 32 := by omega
      have hne : i ≠ 0 := fun h0 => h (by simp [h0])
      interval_cases i <;> simp_all
    · intro h
      simp [recordCountForIteration, h]
  · intro h
    simp only [recordCountForIteration, if_neg h]
    norm_num [Nat.shiftLeft_eq]

/-- C9 witness at iteration 33 (baseline 1, only the Users bit set). -/
theorem recordCountForIteration_characterization_witness :
    ((33 : Nat) >>> 5 = 33 ↔ (33 : Nat) = 0) ∧
    recordCountForIteration 33 = ⟨40, 20, 20, 20, 20⟩ := by
  refine ⟨(recordCountForIteration_characterization 33).1, ?_⟩
  have h := (recordCountForIteration_characterization 33).2.2 (by decide)
  rw [h]; decide

/-! ## C6: the Workload Executor on {users: 3, groups: 0, members: 0,
user-permissions: 0, group-permissions: 0} -/

/-- C6: running the load phase with tuple {3,0,0,0,0} succeeds and produces
exactly three user rows with business keys "0", "1", "2" and no rows in any
other table (the load phase runs users → groups → memberships →
user-permissions → group-permissions, and only the user step has work). -/
theorem prepareData_three_users :
    (prepareData emptyStore ⟨3, 0, 0, 0, 0⟩).map
        (fun st => (st.users.map (fun u => u.uid),
                    st.groups, st.resources, st.user_groups, st.aces)) =
      .ok (["0", "1", "2"], [], [], [], []) := rfl

/-! ## C1: the ACE upsert merges instead of inserting a second row -/

/-- C1: for a user and a resource present in the store with no ACE row yet
for the pair, granting "create" and then "read" through the upsert leaves
exactly one ACE row for the pair and its action string is "create,read": the
second grant finds the inserted row and appends to it. -/
theorem ace_upsert_create_then_read
    (st : Store) (resource : String) (uid : Nat) (u : UserRow) (r : ResourceRow)
    (hu : st.users.find? (fun x => x.uid == Nat.repr uid) = some u)
    (hr : st.resources.find? (fun x => x.rid == resource) = some r)
    (h0 : st.aces.filter (aceMatchUser u.id r.id) = []) :
    ∃ st1 st2,
      allowUserAccessToResourceOnce st resource uid "create" = .ok st1 ∧
      allowUserAccessToResourceOnce st1 resource uid "read" = .ok st2 ∧
      (st2.aces.filter (aceMatchUser u.id r.id)).map (fun a => a.actions) = ["create,read"] := by
  have hfind : st.aces.find? (aceMatchUser u.id r.id) = none :=
    find?_eq_none_of_filter_eq_nil h0
  have hany : st.aces.any (aceMatchUser u.id r.id) = false := by
    rw [List.any_eq_false]
    intro x hx
    simpa using List.filter_eq_nil_iff.mp h0 x hx
  refine ⟨(⟨st.users, st.groups, st.resources, st.user_groups,
           st.aces ++ [⟨st.nextId, some u.id, none, some r.id, "create"⟩],
           st.nextId + 1⟩ : Store),
          (⟨st.users, st.groups, st.resources, st.user_groups,
           (st.aces ++ ([⟨st.nextId, some u.id, none, some r.id, "create"⟩] : List AceRow)).map
             (fun a : AceRow =>
               if a.id == st.nextId then { a with actions := "create" ++ "," ++ "read" }
               else a), st.nextId + 1⟩ : Store), ?_, ?_, ?_⟩
  · simp [allowUserAccessToResourceOnce, hr, hu, hfind, hany]
  · have hfind1 :
        (st.aces ++ [(⟨st.nextId, some u.id, none, some r.id, "create"⟩ : AceRow)]).find?
          (aceMatchUser u.id r.id) =
          some ⟨st.nextId, some u.id, none, some r.id, "create"⟩ := by
      rw [find?_append_left_none _ _ _ hfind]
      simp [List.find?_cons, aceMatchUser]
    simp only [allowUserAccessToResourceOnce, hr, hu, hfind1]
    rw [if_pos (by decide : ("create" : String).length > 0)]
    simp
  · rw [filter_map_update_actions _ (aceMatchUser_update_actions u.id r.id) _ _,
        List.filter_append, h0]
    simp [aceMatchUser]

/-- C1 witness: a store holding one user ("7") and one resource ("res") and
no ACE rows; granting "create" then "read" yields the single merged row. -/
theorem ace_upsert_create_then_read_witness :
    ∃ st1 st2,
      allowUserAccessToResourceOnce ⟨[⟨0, "7", phash, "regular", "d", false⟩], [],
          [⟨1, "res", "d"⟩], [], [], 2⟩ "res" 7 "create" = .ok st1 ∧
      allowUserAccessToResourceOnce st1 "res" 7 "read" = .ok st2 ∧
      (st2.aces.filter (aceMatchUser 0 1)).map (fun a => a.actions) = ["create,read"] :=
  ace_upsert_create_then_read
    ⟨[⟨0, "7", phash, "regular", "d", false⟩], [], [⟨1, "res", "d"⟩], [], [], 2⟩
    "res" 7 ⟨0, "7", phash, "regular", "d", false⟩ ⟨1, "res", "d"⟩ rfl rfl rfl

/-! ## C3: the upsert body is retry-safe -/

/-- Number of ACE rows for the (user uu, resource rr) pair. -/
def pairCountUser (uu rr : Nat) (st : Store) : Nat :=
  (st.aces.filter (aceMatchUser uu rr)).length

/-- Number of ACE rows for the (group gg, resource rr) pair. -/
def pairCountGroup (gg rr : Nat) (st : Store) : Nat :=
  (st.aces.filter (aceMatchGroup gg rr)).length

/-- The retry scenario of the user-path upsert: the first attempt's effects
are rolled back (its result discarded, the snapshot restored) and the body is
re-executed against the same restored state. -/
def rollbackAndRetryUser (st : Store) (resource : String) (uid : Nat) (action : String) :
    Except DBError Store :=
  (fun _ => allowUserAccessToResourceOnce st resource uid action)
    (allowUserAccessToResourceOnce st resource uid action)

/-- The retry scenario of the group-path upsert. -/
def rollbackAndRetryGroup (st : Store) (resource : String) (gid : Nat) (action : String) :
    Except DBError Store :=
  (fun _ => allowGroupAccessToResourceOnce st resource gid action)
    (allowGroupAccessToResourceOnce st resource gid action)

/-- One committed execution of the user-path upsert body never pushes the
number of ACE rows of any (user, resource) pair above `max previous 1`: the
update path keeps the count, the insert path only fires when the pair has no
row, and a conflicting insert aborts. -/
theorem pairCountUser_after_upsert (st : Store) (resource : String) (uid : Nat)
    (action : String) (st' : Store)
    (h : allowUserAccessToResourceOnce st resource uid action = .ok st') (uu rr : Nat) :
    pairCountUser uu rr st' ≤ max (pairCountUser uu rr st) 1 := by
  cases hfr : st.resources.find? (fun x => x.rid == resource) with
  | none =>
    simp only [allowUserAccessToResourceOnce, hfr] at h
    exact absurd h (by simp)
  | some r0 =>
  cases hfu : st.users.find? (fun x => x.uid == Nat.repr uid) with
  | none =>
    simp only [allowUserAccessToResourceOnce, hfr, hfu] at h
    exact absurd h (by simp)
  | some u0 =>
  cases hfa : st.aces.find? (aceMatchUser u0.id r0.id) with
  | some a0 =>
    simp only [allowUserAccessToResourceOnce, hfr, hfu, hfa] at h
    by_cases hlen : a0.actions.length > 0
    · rw [if_pos hlen] at h
      injection h with h2
      subst h2
      unfold pairCountUser
      dsimp only
      rw [show ((Option.map (fun a => a.id) (some a0)).getD 0) = a0.id from rfl,
          filter_map_update_actions _ (aceMatchUser_update_actions uu rr) _ _,
          List.length_map]
      exact le_max_left _ _
    · rw [if_neg hlen] at h
      have hany : st.aces.any (aceMatchUser u0.id r0.id) = true :=
        List.any_eq_true.mpr ⟨a0, List.mem_of_find?_eq_some hfa, List.find?_some hfa⟩
      rw [if_pos hany] at h
      exact absurd h (by simp)
  | none =>
    simp only [allowUserAccessToResourceOnce, hfr, hfu, hfa] at h
    rw [if_neg (by decide : ¬ ("" : String).length > 0)] at h
    have hany : st.aces.any (aceMatchUser u0.id r0.id) = false := by
      rw [List.any_eq_false]
      exact fun x hx => by simpa using List.find?_eq_none.mp hfa x hx
    rw [hany] at h
    rw [if_neg (by simp)] at h
    injection h with h2
    subst h2
    unfold pairCountUser
    dsimp only
    rw [List.filter_append]
    cases hq : aceMatchUser uu rr ⟨st.nextId, some u0.id, none, some r0.id, action⟩ with
    | false => simp [hq, le_max_left]
    | true =>
      have huu : u0.id = uu ∧ r0.id = rr := by simpa [aceMatchUser] using hq
      obtain ⟨h1, h2⟩ := huu
      subst h1; subst h2
      rw [filter_eq_nil_of_any_eq_false hany]
      simp [List.filter_cons, hq]

/-- Group-path version of `pairCountUser_after_upsert`. -/
theorem pairCountGroup_after_upsert (st : Store) (resource : String) (gid : Nat)
    (action : String) (st' : Store)
    (h : allowGroupAccessToResourceOnce st resource gid action = .ok st') (gg rr : Nat) :
    pairCountGroup gg rr st' ≤ max (pairCountGroup gg rr st) 1 := by
  cases hfr : st.resources.find? (fun x => x.rid == resource) with
  | none =>
    simp only [allowGroupAccessToResourceOnce, hfr] at h
    exact absurd h (by simp)
  | some r0 =>
  cases hfg : st.groups.find? (fun x => x.gid == Nat.repr gid) with
  | none =>
    simp only [allowGroupAccessToResourceOnce, hfr, hfg] at h
    exact absurd h (by simp)
  | some g0 =>
  cases hfa : st.aces.find? (aceMatchGroup g0.id r0.id) with
  | some a0 =>
    simp only [allowGroupAccessToResourceOnce, hfr, hfg, hfa] at h
    by_cases hlen : a0.actions.length > 0
    · rw [if_pos hlen] at h
      injection h with h2
      subst h2
      unfold pairCountGroup
      dsimp only
      rw [show ((Option.map (fun a => a.id) (some a0)).getD 0) = a0.id from rfl,
          filter_map_update_actions _ (aceMatchGroup_update_actions gg rr) _ _,
          List.length_map]
      exact le_max_left _ _
    · rw [if_neg hlen] at h
      have hany : st.aces.any (aceMatchGroup g0.id r0.id) = true :=
        List.any_eq_true.mpr ⟨a0, List.mem_of_find?_eq_some hfa, List.find?_some hfa⟩
      rw [if_pos hany] at h
      exact absurd h (by simp)
  | none =>
    simp only [allowGroupAccessToResourceOnce, hfr, hfg, hfa] at h
    rw [if_neg (by decide : ¬ ("" : String).length > 0)] at h
    have hany : st.aces.any (aceMatchGroup g0.id r0.id) = false := by
      rw [List.any_eq_false]
      exact fun x hx => by simpa using List.find?_eq_none.mp hfa x hx
    rw [hany] at h
    rw [if_neg (by simp)] at h
    injection h with h2
    subst h2
    unfold pairCountGroup
    dsimp only
    rw [List.filter_append]
    cases hq : aceMatchGroup gg rr ⟨st.nextId, none, some g0.id, some r0.id, action⟩ with
    | false => simp [hq, le_max_left]
    | true =>
      have hgg : g0.id = gg ∧ r0.id = rr := by simpa [aceMatchGroup] using hq
      obtain ⟨h1, h2⟩ := hgg
      subst h1; subst h2
      rw [filter_eq_nil_of_any_eq_false hany]
      simp [List.filter_cons, hq]

/-- C3: in the state-passing embedding a rolled-back attempt leaves the
snapshot unchanged, so re-executing the ACE upsert body after a rollback is
execution from the same state and yields the very same result as executing
it once; and a committed execution never raises any (principal, resource)
pair's ACE row count above one row (starting from a state whose pair count
respects the schema's uniqueness, i.e. at most 1). -/
theorem ace_upsert_retry_safe :
    (∀ (st : Store) (resource : String) (uid : Nat) (action : String),
      rollbackAndRetryUser st resource uid action =
        allowUserAccessToResourceOnce st resource uid action) ∧
    (∀ (st : Store) (resource : String) (uid : Nat) (action : String) (st' : Store),
      allowUserAccessToResourceOnce st resource uid action = .ok st' →
      ∀ uu rr : Nat, pairCountUser uu rr st ≤ 1 → pairCountUser uu rr st' ≤ 1) ∧
    (∀ (st : Store) (resource : String) (gid : Nat) (action : String),
      rollbackAndRetryGroup st resource gid action =
        allowGroupAccessToResourceOnce st resource gid action) ∧
    (∀ (st : Store) (resource : String) (gid : Nat) (action : String) (st' : Store),
      allowGroupAccessToResourceOnce st resource gid action = .ok st' →
      ∀ gg rr : Nat, pairCountGroup gg rr st ≤ 1 → pairCountGroup gg rr st' ≤ 1) := by
  refine ⟨fun _ _ _ _ => rfl, ?_, fun _ _ _ _ => rfl, ?_⟩
  · intro st resource uid action st' h uu rr hle
    have := pairCountUser_after_upsert st resource uid action st' h uu rr
    omega
  · intro st resource gid action st' h gg rr hle
    have := pairCountGroup_after_upsert st resource gid action st' h gg rr
    omega

/-- C3 witness: granting "read" to a pair already holding "create" updates in
place; the pair keeps a single ACE row. -/
theorem ace_upsert_retry_safe_witness :
    rollbackAndRetryUser
        ⟨[⟨0, "7", phash, "regular", "d", false⟩], [], [⟨1, "res", "d"⟩], [],
         [⟨2, some 0, none, some 1, "create"⟩], 3⟩ "res" 7 "read" =
      allowUserAccessToResourceOnce
        ⟨[⟨0, "7", phash, "regular", "d", false⟩], [], [⟨1, "res", "d"⟩], [],
         [⟨2, some 0, none, some 1, "create"⟩], 3⟩ "res" 7 "read" ∧
    pairCountUser 0 1
        ⟨[⟨0, "7", phash, "regular", "d", false⟩], [], [⟨1, "res", "d"⟩], [],
         [⟨2, some 0, none, some 1, "create,read"⟩], 3⟩ ≤ 1 :=
  ⟨ace_upsert_retry_safe.1 _ "res" 7 "read",
   ace_upsert_retry_safe.2.1
     ⟨[⟨0, "7", phash, "regular", "d", false⟩], [], [⟨1, "res", "d"⟩], [],
      [⟨2, some 0, none, some 1, "create"⟩], 3⟩ "res" 7 "read"
     ⟨[⟨0, "7", phash, "regular", "d", false⟩], [], [⟨1, "res", "d"⟩], [],
      [⟨2, some 0, none, some 1, "create,read"⟩], 3⟩ rfl 0 1 (by decide)⟩

/-! ## C7: repeated grants append duplicate action tokens -/

/-- C7: when the pair's ACE row already holds a non-empty action string, a
further grant of any action (in particular one already present) appends
",action" to the string verbatim — no deduplication, append order preserved —
for both the user-principal and the group-principal upsert paths. -/
theorem ace_action_append_no_dedup :
    (∀ (st : Store) (resource : String) (uid : Nat) (action : String)
        (u : UserRow) (r : ResourceRow) (a0 : AceRow),
      st.users.find? (fun x => x.uid == Nat.repr uid) = some u →
      st.resources.find? (fun x => x.rid == resource) = some r →
      st.aces.filter (aceMatchUser u.id r.id) = [a0] →
      0 < a0.actions.length →
      ∃ st', allowUserAccessToResourceOnce st resource uid action = .ok st' ∧
        (st'.aces.filter (aceMatchUser u.id r.id)).map (fun a => a.actions) =
          [a0.actions ++ "," ++ action]) ∧
    (∀ (st : Store) (resource : String) (gid : Nat) (action : String)
        (g : GroupRow) (r : ResourceRow) (a0 : AceRow),
      st.groups.find? (fun x => x.gid == Nat.repr gid) = some g →
      st.resources.find? (fun x => x.rid == resource) = some r →
      st.aces.filter (aceMatchGroup g.id r.id) = [a0] →
      0 < a0.actions.length →
      ∃ st', allowGroupAccessToResourceOnce st resource gid action = .ok st' ∧
        (st'.aces.filter (aceMatchGroup g.id r.id)).map (fun a => a.actions) =
          [a0.actions ++ "," ++ action]) := by
  constructor
  · intro st resource uid action u r a0 hu hr h1 hlen
    have hfind : st.aces.find? (aceMatchUser u.id r.id) = some a0 :=
      find?_eq_some_of_filter_eq_singleton h1
    refine ⟨⟨st.users, st.groups, st.resources, st.user_groups,
             st.aces.map (fun a => if a.id == a0.id
               then { a with actions := a0.actions ++ "," ++ action } else a), st.nextId⟩,
            ?_, ?_⟩
    · simp [allowUserAccessToResourceOnce, hr, hu, hfind, hlen]
    · rw [filter_map_update_actions _ (aceMatchUser_update_actions u.id r.id) _ _, h1]
      simp
  · intro st resource gid action g r a0 hg hr h1 hlen
    have hfind : st.aces.find? (aceMatchGroup g.id r.id) = some a0 :=
      find?_eq_some_of_filter_eq_singleton h1
    refine ⟨⟨st.users, st.groups, st.resources, st.user_groups,
             st.aces.map (fun a => if a.id == a0.id
               then { a with actions := a0.actions ++ "," ++ action } else a), st.nextId⟩,
            ?_, ?_⟩
    · simp [allowGroupAccessToResourceOnce, hr, hg, hfind, hlen]
    · rw [filter_map_update_actions _ (aceMatchGroup_update_actions g.id r.id) _ _, h1]
      simp

/-- C7 witness: the pair's row already holds "create"; granting "create"
again yields the action string "create,create" — the token appears twice. -/
theorem ace_action_append_no_dedup_witness :
    ∃ st', allowUserAccessToResourceOnce
        ⟨[⟨0, "7", phash, "regular", "d", false⟩], [], [⟨1, "res", "d"⟩], [],
         [⟨2, some 0, none, some 1, "create"⟩], 3⟩ "res" 7 "create" = .ok st' ∧
      (st'.aces.filter (aceMatchUser 0 1)).map (fun a => a.actions) = ["create,create"] :=
  ace_action_append_no_dedup.1
    ⟨[⟨0, "7", phash, "regular", "d", false⟩], [], [⟨1, "res", "d"⟩], [],
     [⟨2, some 0, none, some 1, "create"⟩], 3⟩
    "res" 7 "create" ⟨0, "7", phash, "regular", "d", false⟩ ⟨1, "res", "d"⟩
    ⟨2, some 0, none, some 1, "create"⟩ rfl rfl rfl (by decide)

/-! ## C10: sane tuples never reach the modulo with divisor zero -/

theorem addUser_ne_divByZero (st : Store) (n : Nat) : addUser st n ≠ .error .divByZero := by
  unfold addUser
  dsimp only
  split <;> simp

theorem addGroup_ne_divByZero (st : Store) (n : Nat) : addGroup st n ≠ .error .divByZero := by
  unfold addGroup
  dsimp only
  split <;> simp

theorem addResource_ne_divByZero (st : Store) (r : String) :
    addResource st r ≠ .error .divByZero := by
  unfold addResource
  split <;> simp

theorem addUserToGroup_ne_divByZero (st : Store) (g u : Nat) :
    addUserToGroup st g u ≠ .error .divByZero := by
  unfold addUserToGroup
  split
  · simp
  · split
    · simp
    · split <;> simp

theorem allowUserOnce_ne_divByZero (st : Store) (resource : String) (uid : Nat)
    (action : String) : allowUserAccessToResourceOnce st resource uid action ≠
      .error .divByZero := by
  unfold allowUserAccessToResourceOnce
  split
  · simp
  · split
    · simp
    · dsimp only
      split
      · simp
      · split <;> simp

theorem allowGroupOnce_ne_divByZero (st : Store) (resource : String) (gid : Nat)
    (action : String) : allowGroupAccessToResourceOnce st resource gid action ≠
      .error .divByZero := by
  unfold allowGroupAccessToResourceOnce
  split
  · simp
  · split
    · simp
    · dsimp only
      split
      · simp
      · split <;> simp

theorem txFold_ne_divByZero {α : Type} {f : Store → α → Except DBError Store}
    (hf : ∀ s x, f s x ≠ .error .divByZero) :
    ∀ (l : List α) (s : Store), txFold f l s ≠ .error .divByZero := by
  intro l
  induction l with
  | nil => intro s; simp [txFold]
  | cons x xs ih =>
    intro s
    simp only [txFold]
    cases hfx : f s x with
    | error e =>
      intro hc
      injection hc with h2
      exact hf s x (by rw [hfx, h2])
    | ok st1 => exact ih st1

theorem memberLoop_ne_divByZero (g users : Nat) (hu : users ≠ 0) :
    ∀ (m : Nat) (st : Store) (user : Nat),
      memberLoop g users m st user ≠ .error .divByZero := by
  intro m
  induction m with
  | zero => intro st user; simp [memberLoop]
  | succ k ih =>
    intro st user
    simp only [memberLoop]
    cases ha : addUserToGroup st g user with
    | error e =>
      dsimp only
      intro hc
      injection hc with h2
      exact addUserToGroup_ne_divByZero st g user (by rw [ha, h2])
    | ok st1 =>
      dsimp only
      rw [if_neg (by simp [hu])]
      exact ih st1 _

theorem groupLoop_ne_divByZero (members users : Nat) (h : members = 0 ∨ users ≠ 0) :
    ∀ (gs : List Nat) (st : Store) (user : Nat),
      groupLoop members users gs st user ≠ .error .divByZero := by
  intro gs
  induction gs with
  | nil => intro st user; simp [groupLoop]
  | cons g gs ih =>
    intro st user
    simp only [groupLoop]
    rcases h with hm | hu
    · subst hm
      simp only [memberLoop]
      exact ih st user
    · cases hml : memberLoop g users members st user with
      | error e =>
        dsimp only
        intro hc
        injection hc with h2
        exact memberLoop_ne_divByZero g users hu members st user (by rw [hml, h2])
      | ok p =>
        obtain ⟨st1, user1⟩ := p
        dsimp only
        exact ih st1 user1

theorem allowUserAccessToResource_ne_divByZero (st : Store) (resource : String) (uid : Nat) :
    allowUserAccessToResource st resource uid ≠ .error .divByZero := by
  unfold allowUserAccessToResource
  exact txFold_ne_divByZero (fun s a => allowUserOnce_ne_divByZero s resource uid a) _ st

theorem allowGroupAccessToResource_ne_divByZero (st : Store) (resource : String) (gid : Nat) :
    allowGroupAccessToResource st resource gid ≠ .error .divByZero := by
  unfold allowGroupAccessToResource
  exact txFold_ne_divByZero (fun s a => allowGroupOnce_ne_divByZero s resource gid a) _ st

theorem assignUserPermissions_ne_divByZero (st : Store) (permissions users : Nat) :
    assignUserPermissions st permissions users ≠ .error .divByZero := by
  unfold assignUserPermissions
  apply txFold_ne_divByZero
  intro s p
  cases ha : addResource s (userResourceName p) with
  | error e =>
    dsimp only
    intro hc
    injection hc with h2
    exact addResource_ne_divByZero s (userResourceName p) (by rw [ha, h2])
  | ok s1 =>
    dsimp only
    exact txFold_ne_divByZero
      (fun s2 user => allowUserAccessToResource_ne_divByZero s2 (userResourceName p) user) _ s1

theorem assignGroupPermissions_ne_divByZero (st : Store) (permissions groups : Nat) :
    assignGroupPermissions st permissions groups ≠ .error .divByZero := by
  unfold assignGroupPermissions
  apply txFold_ne_divByZero
  intro s p
  cases ha : addResource s (groupResourceName p) with
  | error e =>
    dsimp only
    intro hc
    injection hc with h2
    exact addResource_ne_divByZero s (groupResourceName p) (by rw [ha, h2])
  | ok s1 =>
    dsimp only
    exact txFold_ne_divByZero
      (fun s2 group => allowGroupAccessToResource_ne_divByZero s2 (groupResourceName p) group) _ s1

/-- C10: for every tuple the Sanity Validator admits, the load phase never
evaluates `user % users` with `users = 0` — the modelled division-by-zero
panic is unreachable (the sanity rules force `users > 0` whenever the
membership loop body runs) — and conversely a tuple the validator rejects
stops at the load phase's sanity assertion before any loop runs. -/
theorem prepareData_no_div_by_zero :
    ∀ counts : recordCount,
      (counts.sane = true → ∀ st : Store, prepareData st counts ≠ .error .divByZero) ∧
      (counts.sane = false → ∀ st : Store, prepareData st counts = .error .notSane) := by
  intro counts
  constructor
  · intro hsane st
    have hmem : counts.members = 0 ∨ counts.users ≠ 0 := by
      by_contra hc
      push_neg at hc
      obtain ⟨h1, h2⟩ := hc
      unfold recordCount.sane at hsane
      split_ifs at hsane
      simp_all
    unfold prepareData
    rw [if_pos hsane]
    cases h1 : addUsers st counts.users with
    | error e =>
      dsimp only
      intro hc
      injection hc with he
      subst he
      exact txFold_ne_divByZero (fun s ii => addUser_ne_divByZero s ii) _ st h1
    | ok st1 =>
    dsimp only
    cases h2 : addGroups st1 counts.groups with
    | error e =>
      dsimp only
      intro hc
      injection hc with he
      subst he
      exact txFold_ne_divByZero (fun s ii => addGroup_ne_divByZero s ii) _ st1 h2
    | ok st2 =>
    dsimp only
    cases h3 : assignUsersToGroups st2 counts.members counts.groups counts.users with
    | error e =>
      dsimp only
      intro hc
      injection hc with he
      subst he
      exact groupLoop_ne_divByZero counts.members counts.users hmem
        (List.range counts.groups) st2 0 h3
    | ok st3 =>
    dsimp only
    cases h4 : assignUserPermissions st3 counts.userPermissions counts.users with
    | error e =>
      dsimp only
      intro hc
      injection hc with he
      subst he
      exact assignUserPermissions_ne_divByZero st3 counts.userPermissions counts.users h4
    | ok st4 =>
      dsimp only
      exact assignGroupPermissions_ne_divByZero st4 counts.groupPermissions counts.groups
  · intro hsane st
    unfold prepareData
    rw [if_neg (by simp [hsane])]

/-- C10 witness: the sane tuple {2,1,1,1,1} from the empty store never
divides by zero, and the insane tuple {0,0,1,0,0} stops at the assertion. -/
theorem prepareData_no_div_by_zero_witness :
    prepareData emptyStore ⟨2, 1, 1, 1, 1⟩ ≠ .error .divByZero ∧
    prepareData emptyStore ⟨0, 0, 1, 0, 0⟩ = .error .notSane :=
  ⟨(prepareData_no_div_by_zero ⟨2, 1, 1, 1, 1⟩).1 rfl emptyStore,
   (prepareData_no_div_by_zero ⟨0, 0, 1, 0, 0⟩).2 rfl emptyStore⟩

/-! ## C8: every ACE row has exactly one principal, in every reachable state -/

/-- Exactly one principal column is set: user XOR group, never both, never
neither. -/
def acePrincipalOk (a : AceRow) : Bool :=
  (a.user_id.isSome && a.group_id == none) || (a.user_id == none && a.group_id.isSome)

/-- All ACE rows of the store have exactly one principal. -/
def AcesWellFormed (st : Store) : Prop := ∀ a ∈ st.aces, acePrincipalOk a = true

/-- The states the program can reach: the empty store after schema creation,
closed under every transaction of the load phase, every teardown transaction,
and the whole load/teardown phases. -/
inductive Reachable : Store → Prop where
  | empty : Reachable emptyStore
  | stepAddUser {st st' : Store} {n : Nat} :
      Reachable st → addUser st n = .ok st' → Reachable st'
  | stepAddGroup {st st' : Store} {n : Nat} :
      Reachable st → addGroup st n = .ok st' → Reachable st'
  | stepAddResource {st st' : Store} {r : String} :
      Reachable st → addResource st r = .ok st' → Reachable st'
  | stepAddUserToGroup {st st' : Store} {g u : Nat} :
      Reachable st → addUserToGroup st g u = .ok st' → Reachable st'
  | stepGrantUser {st st' : Store} {resource action : String} {uid : Nat} :
      Reachable st → allowUserAccessToResourceOnce st resource uid action = .ok st' →
      Reachable st'
  | stepGrantGroup {st st' : Store} {resource action : String} {gid : Nat} :
      Reachable st → allowGroupAccessToResourceOnce st resource gid action = .ok st' →
      Reachable st'
  | stepRemoveUser {st st' : Store} {uid : String} :
      Reachable st → removeUser st uid = .ok st' → Reachable st'
  | stepRemoveGroup {st st' : Store} {gid : String} :
      Reachable st → removeGroup st gid = .ok st' → Reachable st'
  | stepRemoveResource {st st' : Store} {rid : String} :
      Reachable st → removeResource st rid = .ok st' → Reachable st'
  | stepPrepare {st st' : Store} {counts : recordCount} :
      Reachable st → prepareData st counts = .ok st' → Reachable st'
  | stepRemoveData {st st' : Store} :
      Reachable st → removeData st = .ok st' → Reachable st'

theorem addUser_aces {st st' : Store} {n : Nat} (h : addUser st n = .ok st') :
    st'.aces = st.aces := by
  unfold addUser at h
  dsimp only at h
  split at h
  · exact absurd h (by simp)
  · injection h with h2
    subst h2
    rfl

theorem addGroup_aces {st st' : Store} {n : Nat} (h : addGroup st n = .ok st') :
    st'.aces = st.aces := by
  unfold addGroup at h
  dsimp only at h
  split at h
  · exact absurd h (by simp)
  · injection h with h2
    subst h2
    rfl

theorem addResource_aces {st st' : Store} {r : String} (h : addResource st r = .ok st') :
    st'.aces = st.aces := by
  unfold addResource at h
  split at h
  · exact absurd h (by simp)
  · injection h with h2
    subst h2
    rfl

theorem addUserToGroup_aces {st st' : Store} {g u : Nat}
    (h : addUserToGroup st g u = .ok st') : st'.aces = st.aces := by
  unfold addUserToGroup at h
  split at h
  · exact absurd h (by simp)
  · split at h
    · exact absurd h (by simp)
    · split at h
      · exact absurd h (by simp)
      · injection h with h2
        subst h2
        rfl

/-- A generic preservation argument over the per-item transaction loops. -/
theorem txFold_pres {α : Type} (P : Store → Prop) {f : Store → α → Except DBError Store}
    (hf : ∀ s x s', P s → f s x = .ok s' → P s') :
    ∀ (l : List α) (s s' : Store), P s → txFold f l s = .ok s' → P s' := by
  intro l
  induction l with
  | nil =>
    intro s s' hP h
    simp only [txFold] at h
    injection h with h2
    subst h2
    exact hP
  | cons x xs ih =>
    intro s s' hP h
    simp only [txFold] at h
    cases hfx : f s x with
    | error e => rw [hfx] at h; exact absurd h (by simp)
    | ok s1 =>
      rw [hfx] at h
      exact ih s1 s' (hf s x s1 hP hfx) h

theorem allowUserOnce_wf {st st' : Store} {resource action : String} {uid : Nat}
    (h : allowUserAccessToResourceOnce st resource uid action = .ok st')
    (hwf : AcesWellFormed st) : AcesWellFormed st' := by
  cases hfr : st.resources.find? (fun x => x.rid == resource) with
  | none =>
    simp only [allowUserAccessToResourceOnce, hfr] at h
    exact absurd h (by simp)
  | some r0 =>
  cases hfu : st.users.find? (fun x => x.uid == Nat.repr uid) with
  | none =>
    simp only [allowUserAccessToResourceOnce, hfr, hfu] at h
    exact absurd h (by simp)
  | some u0 =>
  cases hfa : st.aces.find? (aceMatchUser u0.id r0.id) with
  | some a0 =>
    simp only [allowUserAccessToResourceOnce, hfr, hfu, hfa] at h
    by_cases hlen : a0.actions.length > 0
    · rw [if_pos hlen] at h
      injection h with h2
      subst h2
      intro a' ha'
      dsimp only at ha'
      obtain ⟨a, ha, rfl⟩ := List.mem_map.mp ha'
      by_cases hid : a.id = ((Option.map (fun a => a.id) (some a0)).getD 0)
      · simp only [hid, beq_self_eq_true, if_pos]
        exact hwf a ha
      · rw [if_neg (by simpa using hid)]
        exact hwf a ha
    · rw [if_neg hlen] at h
      have hany : st.aces.any (aceMatchUser u0.id r0.id) = true :=
        List.any_eq_true.mpr ⟨a0, List.mem_of_find?_eq_some hfa, List.find?_some hfa⟩
      rw [if_pos hany] at h
      exact absurd h (by simp)
  | none =>
    simp only [allowUserAccessToResourceOnce, hfr, hfu, hfa] at h
    rw [if_neg (by decide : ¬ ("" : String).length > 0)] at h
    split at h
    · exact absurd h (by simp)
    · injection h with h2
      subst h2
      intro a' ha'
      dsimp only at ha'
      rcases List.mem_append.mp ha' with hold | hnew
      · exact hwf a' hold
      · rw [List.mem_singleton.mp hnew]
        rfl

theorem allowGroupOnce_wf {st st' : Store} {resource action : String} {gid : Nat}
    (h : allowGroupAccessToResourceOnce st resource gid action = .ok st')
    (hwf : AcesWellFormed st) : AcesWellFormed st' := by
  cases hfr : st.resources.find? (fun x => x.rid == resource) with
  | none =>
    simp only [allowGroupAccessToResourceOnce, hfr] at h
    exact absurd h (by simp)
  | some r0 =>
  cases hfg : st.groups.find? (fun x => x.gid == Nat.repr gid) with
  | none =>
    simp only [allowGroupAccessToResourceOnce, hfr, hfg] at h
    exact absurd h (by simp)
  | some g0 =>
  cases hfa : st.aces.find? (aceMatchGroup g0.id r0.id) with
  | some a0 =>
    simp only [allowGroupAccessToResourceOnce, hfr, hfg, hfa] at h
    by_cases hlen : a0.actions.length > 0
    · rw [if_pos hlen] at h
      injection h with h2
      subst h2
      intro a' ha'
      dsimp only at ha'
      obtain ⟨a, ha, rfl⟩ := List.mem_map.mp ha'
      by_cases hid : a.id = ((Option.map (fun a => a.id) (some a0)).getD 0)
      · simp only [hid, beq_self_eq_true, if_pos]
        exact hwf a ha
      · rw [if_neg (by simpa using hid)]
        exact hwf a ha
    · rw [if_neg hlen] at h
      have hany : st.aces.any (aceMatchGroup g0.id r0.id) = true :=
        List.any_eq_true.mpr ⟨a0, List.mem_of_find?_eq_some hfa, List.find?_some hfa⟩
      rw [if_pos hany] at h
      exact absurd h (by simp)
  | none =>
    simp only [allowGroupAccessToResourceOnce, hfr, hfg, hfa] at h
    rw [if_neg (by decide : ¬ ("" : String).length > 0)] at h
    split at h
    · exact absurd h (by simp)
    · injection h with h2
      subst h2
      intro a' ha'
      dsimp only at ha'
      rcases List.mem_append.mp ha' with hold | hnew
      · exact hwf a' hold
      · rw [List.mem_singleton.mp hnew]
        rfl

theorem removeUser_wf {st st' : Store} {uid : String} (h : removeUser st uid = .ok st')
    (hwf : AcesWellFormed st) : AcesWellFormed st' := by
  unfold removeUser at h
  split at h
  · exact absurd h (by simp)
  · injection h with h2
    subst h2
    intro a' ha'
    exact hwf a' (List.mem_of_mem_filter ha')

theorem removeGroup_wf {st st' : Store} {gid : String} (h : removeGroup st gid = .ok st')
    (hwf : AcesWellFormed st) : AcesWellFormed st' := by
  unfold removeGroup at h
  split at h
  · exact absurd h (by simp)
  · injection h with h2
    subst h2
    intro a' ha'
    exact hwf a' (List.mem_of_mem_filter ha')

theorem removeResource_wf {st st' : Store} {rid : String}
    (h : removeResource st rid = .ok st') (hwf : AcesWellFormed st) : AcesWellFormed st' := by
  unfold removeResource at h
  split at h
  · exact absurd h (by simp)
  · injection h with h2
    subst h2
    intro a' ha'
    exact hwf a' (List.mem_of_mem_filter ha')

theorem memberLoop_wf {g users : Nat} :
    ∀ {m : Nat} {st st' : Store} {user user' : Nat},
      memberLoop g users m st user = .ok (st', user') → AcesWellFormed st →
      AcesWellFormed st' := by
  intro m
  induction m with
  | zero =>
    intro st st' user user' h hwf
    simp only [memberLoop] at h
    injection h with h2
    rw [show st' = st from congrArg Prod.fst h2.symm]
    exact hwf
  | succ k ih =>
    intro st st' user user' h hwf
    simp only [memberLoop] at h
    cases ha : addUserToGroup st g user with
    | error e => rw [ha] at h; exact absurd h (by simp)
    | ok st1 =>
      rw [ha] at h
      dsimp only at h
      split at h
      · exact absurd h (by simp)
      · have hwf1 : AcesWellFormed st1 := by
          intro a haa
          rw [addUserToGroup_aces ha] at haa
          exact hwf a haa
        exact ih h hwf1

theorem groupLoop_wf {members users : Nat} :
    ∀ {gs : List Nat} {st st' : Store} {user : Nat},
      groupLoop members users gs st user = .ok st' → AcesWellFormed st →
      AcesWellFormed st' := by
  intro gs
  induction gs with
  | nil =>
    intro st st' user h hwf
    simp only [groupLoop] at h
    injection h with h2
    subst h2
    exact hwf
  | cons g gs ih =>
    intro st st' user h hwf
    simp only [groupLoop] at h
    cases hml : memberLoop g users members st user with
    | error e => rw [hml] at h; exact absurd h (by simp)
    | ok p =>
      obtain ⟨st1, user1⟩ := p
      rw [hml] at h
      dsimp only at h
      exact ih h (memberLoop_wf hml hwf)

theorem prepareData_wf {st st' : Store} {counts : recordCount}
    (h : prepareData st counts = .ok st') (hwf : AcesWellFormed st) : AcesWellFormed st' := by
  unfold prepareData at h
  split at h
  case isFalse => exact absurd h (by simp)
  case isTrue =>
  cases h1 : addUsers st counts.users with
  | error e => rw [h1] at h; exact absurd h (by simp)
  | ok st1 =>
  rw [h1] at h
  dsimp only at h
  have hwf1 : AcesWellFormed st1 :=
    txFold_pres AcesWellFormed
      (fun s x s' hP hx => fun a ha => hP a (by rw [addUser_aces hx] at ha; exact ha))
      _ st st1 hwf h1
  cases h2 : addGroups st1 counts.groups with
  | error e => rw [h2] at h; exact absurd h (by simp)
  | ok st2 =>
  rw [h2] at h
  dsimp only at h
  have hwf2 : AcesWellFormed st2 :=
    txFold_pres AcesWellFormed
      (fun s x s' hP hx => fun a ha => hP a (by rw [addGroup_aces hx] at ha; exact ha))
      _ st1 st2 hwf1 h2
  cases h3 : assignUsersToGroups st2 counts.members counts.groups counts.users with
  | error e => rw [h3] at h; exact absurd h (by simp)
  | ok st3 =>
  rw [h3] at h
  dsimp only at h
  have hwf3 : AcesWellFormed st3 := groupLoop_wf h3 hwf2
  cases h4 : assignUserPermissions st3 counts.userPermissions counts.users with
  | error e => rw [h4] at h; exact absurd h (by simp)
  | ok st4 =>
  rw [h4] at h
  dsimp only at h
  have hstep4 : ∀ (s : Store) (p : Nat) (s' : Store), AcesWellFormed s →
      (match addResource s (userResourceName p) with
        | Except.error e => (Except.error e : Except DBError Store)
        | Except.ok s1 =>
          txFold (fun s2 user => allowUserAccessToResource s2 (userResourceName p) user)
            (List.range counts.users) s1) = .ok s' → AcesWellFormed s' := by
    intro s p s' hP hx
    cases har : addResource s (userResourceName p) with
    | error e => rw [har] at hx; exact absurd hx (by simp)
    | ok s1 =>
      rw [har] at hx
      dsimp only at hx
      have hP1 : AcesWellFormed s1 := by
        intro a haa
        rw [addResource_aces har] at haa
        exact hP a haa
      exact txFold_pres AcesWellFormed
        (fun s2 u s2' hQ hg =>
          txFold_pres AcesWellFormed
            (fun s3 a s3' hR hga => allowUserOnce_wf hga hR) _ s2 s2' hQ hg)
        _ s1 s' hP1 hx
  have hwf4 : AcesWellFormed st4 := txFold_pres AcesWellFormed hstep4 _ st3 st4 hwf3 h4
  have hstep5 : ∀ (s : Store) (p : Nat) (s' : Store), AcesWellFormed s →
      (match addResource s (groupResourceName p) with
        | Except.error e => (Except.error e : Except DBError Store)
        | Except.ok s1 =>
          txFold (fun s2 group => allowGroupAccessToResource s2 (groupResourceName p) group)
            (List.range counts.groups) s1) = .ok s' → AcesWellFormed s' := by
    intro s p s' hP hx
    cases har : addResource s (groupResourceName p) with
    | error e => rw [har] at hx; exact absurd hx (by simp)
    | ok s1 =>
      rw [har] at hx
      dsimp only at hx
      have hP1 : AcesWellFormed s1 := by
        intro a haa
        rw [addResource_aces har] at haa
        exact hP a haa
      exact txFold_pres AcesWellFormed
        (fun s2 g s2' hQ hg =>
          txFold_pres AcesWellFormed
            (fun s3 a s3' hR hga => allowGroupOnce_wf hga hR) _ s2 s2' hQ hg)
        _ s1 s' hP1 hx
  exact txFold_pres AcesWellFormed hstep5 _ st4 st' hwf4 h

theorem removeData_wf {st st' : Store} (h : removeData st = .ok st')
    (hwf : AcesWellFormed st) : AcesWellFormed st' := by
  unfold removeData at h
  cases h1 : removeUsers st with
  | error e => rw [h1] at h; exact absurd h (by simp)
  | ok st1 =>
  rw [h1] at h
  dsimp only at h
  have hwf1 : AcesWellFormed st1 :=
    txFold_pres AcesWellFormed (fun s x s' hP hx => removeUser_wf hx hP) _ st st1 hwf h1
  cases h2 : removeGroups st1 with
  | error e => rw [h2] at h; exact absurd h (by simp)
  | ok st2 =>
  rw [h2] at h
  dsimp only at h
  have hwf2 : AcesWellFormed st2 :=
    txFold_pres AcesWellFormed (fun s x s' hP hx => removeGroup_wf hx hP) _ st1 st2 hwf1 h2
  exact txFold_pres AcesWellFormed (fun s x s' hP hx => removeResource_wf hx hP) _ st2 st' hwf2 h

/-- C8: in every reachable store state, every ACE row has exactly one
principal — the user path inserts (user set, group NULL), the group path
(group set, user NULL), updates touch only the action string and deletions
only remove rows, so the XOR invariant holds everywhere. -/
theorem reachable_ace_exactly_one_principal :
    ∀ st : Store, Reachable st → AcesWellFormed st := by
  intro st h
  induction h with
  | empty => intro a ha; exact absurd ha (by simp [emptyStore])
  | stepAddUser _ hop ih => intro a ha; rw [addUser_aces hop] at ha; exact ih a ha
  | stepAddGroup _ hop ih => intro a ha; rw [addGroup_aces hop] at ha; exact ih a ha
  | stepAddResource _ hop ih => intro a ha; rw [addResource_aces hop] at ha; exact ih a ha
  | stepAddUserToGroup _ hop ih =>
    intro a ha; rw [addUserToGroup_aces hop] at ha; exact ih a ha
  | stepGrantUser _ hop ih => exact allowUserOnce_wf hop ih
  | stepGrantGroup _ hop ih => exact allowGroupOnce_wf hop ih
  | stepRemoveUser _ hop ih => exact removeUser_wf hop ih
  | stepRemoveGroup _ hop ih => exact removeGroup_wf hop ih
  | stepRemoveResource _ hop ih => exact removeResource_wf hop ih
  | stepPrepare _ hop ih => exact prepareData_wf hop ih
  | stepRemoveData _ hop ih => exact removeData_wf hop ih

/-- C8 witness: the state reached by loading {2,1,1,1,1} from the empty store
is reachable and all its ACE rows (user-principal and group-principal ones)
satisfy the XOR invariant. -/
theorem reachable_ace_exactly_one_principal_witness :
    ∃ st : Store, Reachable st ∧ AcesWellFormed st := by
  cases hp : prepareData emptyStore ⟨2, 1, 1, 1, 1⟩ with
  | error e =>
    have hok : (prepareData emptyStore ⟨2, 1, 1, 1, 1⟩).isOk = true := by decide
    rw [hp] at hok
    exact absurd hok (by simp [Except.isOk, Except.toBool])
  | ok st =>
    exact ⟨st, Reachable.stepPrepare Reachable.empty hp,
           reachable_ace_exactly_one_principal st (Reachable.stepPrepare Reachable.empty hp)⟩

/-! ## C2: teardown empties every table after any load phase -/

/-- Generic preservation over the membership inner loop. -/
theorem memberLoop_pres (P : Store → Prop)
    (hstep : ∀ (s : Store) (g u : Nat) (s' : Store), P s → addUserToGroup s g u = .ok s' → P s')
    (g users : Nat) :
    ∀ (m : Nat) (st : Store) (user : Nat) (st' : Store) (user' : Nat),
      memberLoop g users m st user = .ok (st', user') → P st → P st' := by
  intro m
  induction m with
  | zero =>
    intro st user st' user' h hP
    simp only [memberLoop] at h
    injection h with h2
    rw [show st' = st from congrArg Prod.fst h2.symm]
    exact hP
  | succ k ih =>
    intro st user st' user' h hP
    simp only [memberLoop] at h
    cases ha : addUserToGroup st g user with
    | error e => rw [ha] at h; exact absurd h (by simp)
    | ok st1 =>
      rw [ha] at h
      dsimp only at h
      split at h
      · exact absurd h (by simp)
      · exact ih st1 _ st' user' h (hstep st g user st1 hP ha)

/-- Generic preservation over the membership outer loop. -/
theorem groupLoop_pres (P : Store → Prop)
    (hstep : ∀ (s : Store) (g u : Nat) (s' : Store), P s → addUserToGroup s g u = .ok s' → P s')
    (members users : Nat) :
    ∀ (gs : List Nat) (st : Store) (user : Nat) (st' : Store),
      groupLoop members users gs st user = .ok st' → P st → P st' := by
  intro gs
  induction gs with
  | nil =>
    intro st user st' h hP
    simp only [groupLoop] at h
    injection h with h2
    subst h2
    exact hP
  | cons g gs ih =>
    intro st user st' h hP
    simp only [groupLoop] at h
    cases hml : memberLoop g users members st user with
    | error e => rw [hml] at h; exact absurd h (by simp)
    | ok p =>
      obtain ⟨st1, user1⟩ := p
      rw [hml] at h
      dsimp only at h
      exact ih st1 user1 st' h (memberLoop_pres P hstep g users members st user st1 user1 hml hP)

/-- Generic preservation over the whole load phase. -/
theorem prepareData_pres (P : Store → Prop)
    (hAddUser : ∀ s n s', P s → addUser s n = .ok s' → P s')
    (hAddGroup : ∀ s n s', P s → addGroup s n = .ok s' → P s')
    (hAddResource : ∀ s r s', P s → addResource s r = .ok s' → P s')
    (hAddUserToGroup : ∀ s g u s', P s → addUserToGroup s g u = .ok s' → P s')
    (hGrantUser : ∀ s res uid a s', P s →
      allowUserAccessToResourceOnce s res uid a = .ok s' → P s')
    (hGrantGroup : ∀ s res gid a s', P s →
      allowGroupAccessToResourceOnce s res gid a = .ok s' → P s') :
    ∀ {st st' : Store} {counts : recordCount},
      prepareData st counts = .ok st' → P st → P st' := by
  intro st st' counts h hP
  unfold prepareData at h
  split at h
  case isFalse => exact absurd h (by simp)
  case isTrue =>
  cases h1 : addUsers st counts.users with
  | error e => rw [h1] at h; exact absurd h (by simp)
  | ok st1 =>
  rw [h1] at h
  dsimp only at h
  have hP1 : P st1 := txFold_pres P (fun s x s' hQ hx => hAddUser s x s' hQ hx) _ st st1 hP h1
  cases h2 : addGroups st1 counts.groups with
  | error e => rw [h2] at h; exact absurd h (by simp)
  | ok st2 =>
  rw [h2] at h
  dsimp only at h
  have hP2 : P st2 := txFold_pres P (fun s x s' hQ hx => hAddGroup s x s' hQ hx) _ st1 st2 hP1 h2
  cases h3 : assignUsersToGroups st2 counts.members counts.groups counts.users with
  | error e => rw [h3] at h; exact absurd h (by simp)
  | ok st3 =>
  rw [h3] at h
  dsimp only at h
  have hP3 : P st3 :=
    groupLoop_pres P (fun s g u s' hQ hx => hAddUserToGroup s g u s' hQ hx)
      counts.members counts.users (List.range counts.groups) st2 0 st3 h3 hP2
  cases h4 : assignUserPermissions st3 counts.userPermissions counts.users with
  | error e => rw [h4] at h; exact absurd h (by simp)
  | ok st4 =>
  rw [h4] at h
  dsimp only at h
  have hstep4 : ∀ (s : Store) (p : Nat) (s' : Store), P s →
      (match addResource s (userResourceName p) with
        | Except.error e => (Except.error e : Except DBError Store)
        | Except.ok s1 =>
          txFold (fun s2 user => allowUserAccessToResource s2 (userResourceName p) user)
            (List.range counts.users) s1) = .ok s' → P s' := by
    intro s p s' hQ hx
    cases har : addResource s (userResourceName p) with
    | error e => rw [har] at hx; exact absurd hx (by simp)
    | ok s1 =>
      rw [har] at hx
      dsimp only at hx
      exact txFold_pres P
        (fun s2 u s2' hR hg =>
          txFold_pres P (fun s3 a s3' hS hga => hGrantUser s3 _ u a s3' hS hga) _ s2 s2' hR hg)
        _ s1 s' (hAddResource s _ s1 hQ har) hx
  have hP4 : P st4 := txFold_pres P hstep4 _ st3 st4 hP3 h4
  have hstep5 : ∀ (s : Store) (p : Nat) (s' : Store), P s →
      (match addResource s (groupResourceName p) with
        | Except.error e => (Except.error e : Except DBError Store)
        | Except.ok s1 =>
          txFold (fun s2 group => allowGroupAccessToResource s2 (groupResourceName p) group)
            (List.range counts.groups) s1) = .ok s' → P s' := by
    intro s p s' hQ hx
    cases har : addResource s (groupResourceName p) with
    | error e => rw [har] at hx; exact absurd hx (by simp)
    | ok s1 =>
      rw [har] at hx
      dsimp only at hx
      exact txFold_pres P
        (fun s2 g s2' hR hg =>
          txFold_pres P (fun s3 a s3' hS hga => hGrantGroup s3 _ g a s3' hS hga) _ s2 s2' hR hg)
        _ s1 s' (hAddResource s _ s1 hQ har) hx
  exact txFold_pres P hstep5 _ st4 st' hP4 h

/-- The uniqueness, freshness and referential-integrity invariants the load
phase maintains and the teardown relies on. -/
structure LoadInv (st : Store) : Prop where
  usersNodup : (st.users.map (fun u => u.id)).Nodup
  groupsNodup : (st.groups.map (fun g => g.id)).Nodup
  resourcesNodup : (st.resources.map (fun r => r.id)).Nodup
  usersFresh : ∀ u ∈ st.users, u.id < st.nextId
  groupsFresh : ∀ g ∈ st.groups, g.id < st.nextId
  resourcesFresh : ∀ r ∈ st.resources, r.id < st.nextId
  memberRef : ∀ m ∈ st.user_groups, m.user_id ∈ st.users.map (fun u => u.id)
  aceResourceRef : ∀ a ∈ st.aces, ∃ rr, a.resource_id = some rr ∧
    rr ∈ st.resources.map (fun r => r.id)

theorem emptyStore_loadInv : LoadInv emptyStore := by
  refine ⟨?_, ?_, ?_, ?_, ?_, ?_, ?_, ?_⟩ <;> simp [emptyStore]

theorem nodup_append_fresh {l : List Nat} {n : Nat} (hl : l.Nodup) (hf : ∀ x ∈ l, x < n) :
    (l ++ [n]).Nodup := by
  refine List.Nodup.append hl (List.nodup_singleton _) ?_
  intro x hx hy
  rw [List.mem_singleton] at hy
  subst hy
  exact absurd (hf _ hx) (lt_irrefl _)

theorem loadInv_addUser {st st' : Store} {n : Nat} (h : addUser st n = .ok st')
    (hI : LoadInv st) : LoadInv st' := by
  unfold addUser at h
  dsimp only at h
  split at h
  · exact absurd h (by simp)
  · injection h with h2
    subst h2
    refine ⟨?_, hI.groupsNodup, hI.resourcesNodup, ?_, ?_, ?_, ?_, hI.aceResourceRef⟩
    · dsimp only
      simp only [List.map_append, List.map_cons, List.map_nil]
      exact nodup_append_fresh hI.usersNodup (fun x hx => by
        obtain ⟨u, hu, rfl⟩ := List.mem_map.mp hx
        exact hI.usersFresh u hu)
    · intro u hu
      dsimp only at hu ⊢
      rcases List.mem_append.mp hu with h1 | h2
      · exact Nat.lt_succ_of_lt (hI.usersFresh u h1)
      · rw [List.mem_singleton.mp h2]
        exact Nat.lt_succ_self _
    · intro g hg
      exact Nat.lt_succ_of_lt (hI.groupsFresh g hg)
    · intro r hr
      exact Nat.lt_succ_of_lt (hI.resourcesFresh r hr)
    · intro m hm
      dsimp only
      simp only [List.map_append]
      exact List.mem_append_left _ (hI.memberRef m hm)

theorem loadInv_addGroup {st st' : Store} {n : Nat} (h : addGroup st n = .ok st')
    (hI : LoadInv st) : LoadInv st' := by
  unfold addGroup at h
  dsimp only at h
  split at h
  · exact absurd h (by simp)
  · injection h with h2
    subst h2
    refine ⟨hI.usersNodup, ?_, hI.resourcesNodup, ?_, ?_, ?_, hI.memberRef,
            hI.aceResourceRef⟩
    · dsimp only
      simp only [List.map_append, List.map_cons, List.map_nil]
      exact nodup_append_fresh hI.groupsNodup (fun x hx => by
        obtain ⟨g, hg, rfl⟩ := List.mem_map.mp hx
        exact hI.groupsFresh g hg)
    · intro u hu
      exact Nat.lt_succ_of_lt (hI.usersFresh u hu)
    · intro g hg
      dsimp only at hg ⊢
      rcases List.mem_append.mp hg with h1 | h2
      · exact Nat.lt_succ_of_lt (hI.groupsFresh g h1)
      · rw [List.mem_singleton.mp h2]
        exact Nat.lt_succ_self _
    · intro r hr
      exact Nat.lt_succ_of_lt (hI.resourcesFresh r hr)

theorem loadInv_addResource {st st' : Store} {r : String} (h : addResource st r = .ok st')
    (hI : LoadInv st) : LoadInv st' := by
  unfold addResource at h
  split at h
  · exact absurd h (by simp)
  · injection h with h2
    subst h2
    refine ⟨hI.usersNodup, hI.groupsNodup, ?_, ?_, ?_, ?_, hI.memberRef, ?_⟩
    · dsimp only
      simp only [List.map_append, List.map_cons, List.map_nil]
      exact nodup_append_fresh hI.resourcesNodup (fun x hx => by
        obtain ⟨rr, hrr, rfl⟩ := List.mem_map.mp hx
        exact hI.resourcesFresh rr hrr)
    · intro u hu
      exact Nat.lt_succ_of_lt (hI.usersFresh u hu)
    · intro g hg
      exact Nat.lt_succ_of_lt (hI.groupsFresh g hg)
    · intro rr hrr
      dsimp only at hrr ⊢
      rcases List.mem_append.mp hrr with h1 | h2
      · exact Nat.lt_succ_of_lt (hI.resourcesFresh rr h1)
      · rw [List.mem_singleton.mp h2]
        exact Nat.lt_succ_self _
    · intro a ha
      obtain ⟨rr, hrr, hmem⟩ := hI.aceResourceRef a ha
      refine ⟨rr, hrr, ?_⟩
      dsimp only
      simp only [List.map_append]
      exact List.mem_append_left _ hmem

theorem loadInv_addUserToGroup {st st' : Store} {g u : Nat}
    (h : addUserToGroup st g u = .ok st') (hI : LoadInv st) : LoadInv st' := by
  unfold addUserToGroup at h
  split at h
  · exact absurd h (by simp)
  rename_i u0 hu0
  split at h
  · exact absurd h (by simp)
  rename_i g0 hg0
  split at h
  · exact absurd h (by simp)
  · injection h with h2
    subst h2
    refine ⟨hI.usersNodup, hI.groupsNodup, hI.resourcesNodup, hI.usersFresh, hI.groupsFresh,
            hI.resourcesFresh, ?_, hI.aceResourceRef⟩
    intro m hm
    dsimp only at hm
    rcases List.mem_append.mp hm with h1 | h2
    · exact hI.memberRef m h1
    · rw [List.mem_singleton.mp h2]
      exact List.mem_map_of_mem _ (List.mem_of_find?_eq_some hu0)

theorem loadInv_allowUserOnce {st st' : Store} {resource action : String} {uid : Nat}
    (h : allowUserAccessToResourceOnce st resource uid action = .ok st')
    (hI : LoadInv st) : LoadInv st' := by
  cases hfr : st.resources.find? (fun x => x.rid == resource) with
  | none => simp only [allowUserAccessToResourceOnce, hfr] at h; exact absurd h (by simp)
  | some r0 =>
  cases hfu : st.users.find? (fun x => x.uid == Nat.repr uid) with
  | none =>
    simp only [allowUserAccessToResourceOnce, hfr, hfu] at h
    exact absurd h (by simp)
  | some u0 =>
  cases hfa : st.aces.find? (aceMatchUser u0.id r0.id) with
  | some a0 =>
    simp only [allowUserAccessToResourceOnce, hfr, hfu, hfa] at h
    by_cases hlen : a0.actions.length > 0
    · rw [if_pos hlen] at h
      injection h with h2
      subst h2
      refine ⟨hI.usersNodup, hI.groupsNodup, hI.resourcesNodup, hI.usersFresh, hI.groupsFresh,
              hI.resourcesFresh, hI.memberRef, ?_⟩
      intro a' ha'
      dsimp only at ha'
      obtain ⟨a, ha, rfl⟩ := List.mem_map.mp ha'
      obtain ⟨rr, hrr, hrrmem⟩ := hI.aceResourceRef a ha
      by_cases hid : a.id = ((Option.map (fun x => x.id) (some a0)).getD 0)
      · refine ⟨rr, ?_, hrrmem⟩
        simp only [hid, beq_self_eq_true, if_pos]
        exact hrr
      · rw [if_neg (by simpa using hid)]
        exact ⟨rr, hrr, hrrmem⟩
    · rw [if_neg hlen] at h
      have hany : st.aces.any (aceMatchUser u0.id r0.id) = true :=
        List.any_eq_true.mpr ⟨a0, List.mem_of_find?_eq_some hfa, List.find?_some hfa⟩
      rw [if_pos hany] at h
      exact absurd h (by simp)
  | none =>
    simp only [allowUserAccessToResourceOnce, hfr, hfu, hfa] at h
    rw [if_neg (by decide : ¬ ("" : String).length > 0)] at h
    split at h
    · exact absurd h (by simp)
    · injection h with h2
      subst h2
      refine ⟨hI.usersNodup, hI.groupsNodup, hI.resourcesNodup, ?_, ?_, ?_, hI.memberRef, ?_⟩
      · intro u hu
        exact Nat.lt_succ_of_lt (hI.usersFresh u hu)
      · intro g hg
        exact Nat.lt_succ_of_lt (hI.groupsFresh g hg)
      · intro r hr
        exact Nat.lt_succ_of_lt (hI.resourcesFresh r hr)
      · intro a' ha'
        dsimp only at ha'
        rcases List.mem_append.mp ha' with hold | hnew
        · exact hI.aceResourceRef a' hold
        · rw [List.mem_singleton.mp hnew]
          exact ⟨r0.id, rfl, List.mem_map_of_mem _ (List.mem_of_find?_eq_some hfr)⟩

theorem loadInv_allowGroupOnce {st st' : Store} {resource action : String} {gid : Nat}
    (h : allowGroupAccessToResourceOnce st resource gid action = .ok st')
    (hI : LoadInv st) : LoadInv st' := by
  cases hfr : st.resources.find? (fun x => x.rid == resource) with
  | none => simp only [allowGroupAccessToResourceOnce, hfr] at h; exact absurd h (by simp)
  | some r0 =>
  cases hfg : st.groups.find? (fun x => x.gid == Nat.repr gid) with
  | none =>
    simp only [allowGroupAccessToResourceOnce, hfr, hfg] at h
    exact absurd h (by simp)
  | some g0 =>
  cases hfa : st.aces.find? (aceMatchGroup g0.id r0.id) with
  | some a0 =>
    simp only [allowGroupAccessToResourceOnce, hfr, hfg, hfa] at h
    by_cases hlen : a0.actions.length > 0
    · rw [if_pos hlen] at h
      injection h with h2
      subst h2
      refine ⟨hI.usersNodup, hI.groupsNodup, hI.resourcesNodup, hI.usersFresh, hI.groupsFresh,
              hI.resourcesFresh, hI.memberRef, ?_⟩
      intro a' ha'
      dsimp only at ha'
      obtain ⟨a, ha, rfl⟩ := List.mem_map.mp ha'
      obtain ⟨rr, hrr, hrrmem⟩ := hI.aceResourceRef a ha
      by_cases hid : a.id = ((Option.map (fun x => x.id) (some a0)).getD 0)
      · refine ⟨rr, ?_, hrrmem⟩
        simp only [hid, beq_self_eq_true, if_pos]
        exact hrr
      · rw [if_neg (by simpa using hid)]
        exact ⟨rr, hrr, hrrmem⟩
    · rw [if_neg hlen] at h
      have hany : st.aces.any (aceMatchGroup g0.id r0.id) = true :=
        List.any_eq_true.mpr ⟨a0, List.mem_of_find?_eq_some hfa, List.find?_some hfa⟩
      rw [if_pos hany] at h
      exact absurd h (by simp)
  | none =>
    simp only [allowGroupAccessToResourceOnce, hfr, hfg, hfa] at h
    rw [if_neg (by decide : ¬ ("" : String).length > 0)] at h
    split at h
    · exact absurd h (by simp)
    · injection h with h2
      subst h2
      refine ⟨hI.usersNodup, hI.groupsNodup, hI.resourcesNodup, ?_, ?_, ?_, hI.memberRef, ?_⟩
      · intro u hu
        exact Nat.lt_succ_of_lt (hI.usersFresh u hu)
      · intro g hg
        exact Nat.lt_succ_of_lt (hI.groupsFresh g hg)
      · intro r hr
        exact Nat.lt_succ_of_lt (hI.resourcesFresh r hr)
      · intro a' ha'
        dsimp only at ha'
        rcases List.mem_append.mp ha' with hold | hnew
        · exact hI.aceResourceRef a' hold
        · rw [List.mem_singleton.mp hnew]
          exact ⟨r0.id, rfl, List.mem_map_of_mem _ (List.mem_of_find?_eq_some hfr)⟩

/-- The load phase preserves `LoadInv`. -/
theorem loadInv_prepareData {st st' : Store} {counts : recordCount}
    (h : prepareData st counts = .ok st') (hI : LoadInv st) : LoadInv st' :=
  prepareData_pres LoadInv
    (fun _ _ _ hP hx => loadInv_addUser hx hP)
    (fun _ _ _ hP hx => loadInv_addGroup hx hP)
    (fun _ _ _ hP hx => loadInv_addResource hx hP)
    (fun _ _ _ _ hP hx => loadInv_addUserToGroup hx hP)
    (fun _ _ _ _ _ hP hx => loadInv_allowUserOnce hx hP)
    (fun _ _ _ _ _ hP hx => loadInv_allowGroupOnce hx hP)
    h hI

/-- Removing every discovered uid empties the users table; memberships and
user-principal ACE rows referencing those users are deleted along the way,
and no other table is touched. -/
theorem removeUsersLoop_spec :
    ∀ (l : List String) (st : Store),
      st.users.map (fun u => u.uid) = l →
      (st.users.map (fun u => u.id)).Nodup →
      ∃ st', txFold (fun s uid => removeUser s uid) l st = .ok st' ∧
        st'.users = [] ∧ st'.groups = st.groups ∧ st'.resources = st.resources ∧
        st'.nextId = st.nextId ∧
        (∀ m ∈ st'.user_groups, m ∈ st.user_groups ∧
          m.user_id ∉ st.users.map (fun u => u.id)) ∧
        (∀ a ∈ st'.aces, a ∈ st.aces) := by
  intro l
  induction l with
  | nil =>
    intro st hmap hnd
    have husers : st.users = [] := List.map_eq_nil_iff.mp hmap
    refine ⟨st, rfl, husers, rfl, rfl, rfl, ?_, fun a ha => ha⟩
    intro m hm
    refine ⟨hm, ?_⟩
    rw [husers]
    simp
  | cons uid0 rest ih =>
    intro st hmap hnd
    cases hus : st.users with
    | nil => rw [hus] at hmap; exact absurd hmap (by simp)
    | cons u0 us =>
      rw [hus, List.map_cons] at hmap
      injection hmap with huid0 hrest
      rw [hus, List.map_cons] at hnd
      have hnotin : u0.id ∉ us.map (fun u => u.id) := (List.nodup_cons.mp hnd).1
      have hndtail : (us.map (fun u => u.id)).Nodup := (List.nodup_cons.mp hnd).2
      have hfind : st.users.find? (fun u => u.uid == uid0) = some u0 := by
        rw [hus]
        exact List.find?_cons_of_pos _ (by simp [huid0])
      have husers1 : st.users.filter (fun x => x.id != u0.id) = us := by
        rw [hus, List.filter_cons]
        rw [if_neg (by simp)]
        apply List.filter_eq_self.mpr
        intro x hx
        simp only [bne_iff_ne, ne_eq]
        intro hcontra
        exact hnotin (hcontra ▸ List.mem_map_of_mem (fun u => u.id) hx)
      have hrm : removeUser st uid0 = .ok ⟨us, st.groups, st.resources,
          st.user_groups.filter (fun m => m.user_id != u0.id),
          st.aces.filter (fun a => a.user_id != some u0.id), st.nextId⟩ := by
        unfold removeUser
        rw [hfind]
        dsimp only
        rw [husers1]
      obtain ⟨st', hfold, hu', hg', hr', hn', hm', ha'⟩ :=
        ih ⟨us, st.groups, st.resources,
            st.user_groups.filter (fun m => m.user_id != u0.id),
            st.aces.filter (fun a => a.user_id != some u0.id), st.nextId⟩ hrest hndtail
      refine ⟨st', ?_, hu', hg', hr', hn', ?_, ?_⟩
      · simp only [txFold, hrm]
        exact hfold
      · intro m hm
        obtain ⟨hm1, hm2⟩ := hm' m hm
        obtain ⟨hm3, hm4⟩ := List.mem_filter.mp hm1
        refine ⟨hm3, ?_⟩
        simp only [List.map_cons, List.mem_cons, not_or]
        exact ⟨by simpa using hm4, hm2⟩
      · intro a ha
        exact List.mem_of_mem_filter (ha' a ha)

/-- Removing every discovered gid empties the groups table without touching
users or resources; memberships and ACE rows only shrink. -/
theorem removeGroupsLoop_spec :
    ∀ (l : List String) (st : Store),
      st.groups.map (fun g => g.gid) = l →
      (st.groups.map (fun g => g.id)).Nodup →
      ∃ st', txFold (fun s gid => removeGroup s gid) l st = .ok st' ∧
        st'.groups = [] ∧ st'.users = st.users ∧ st'.resources = st.resources ∧
        st'.nextId = st.nextId ∧
        (∀ m ∈ st'.user_groups, m ∈ st.user_groups) ∧
        (∀ a ∈ st'.aces, a ∈ st.aces) := by
  intro l
  induction l with
  | nil =>
    intro st hmap hnd
    exact ⟨st, rfl, List.map_eq_nil_iff.mp hmap, rfl, rfl, rfl, fun m hm => hm,
           fun a ha => ha⟩
  | cons gid0 rest ih =>
    intro st hmap hnd
    cases hgs : st.groups with
    | nil => rw [hgs] at hmap; exact absurd hmap (by simp)
    | cons g0 gs =>
      rw [hgs, List.map_cons] at hmap
      injection hmap with hgid0 hrest
      rw [hgs, List.map_cons] at hnd
      have hnotin : g0.id ∉ gs.map (fun g => g.id) := (List.nodup_cons.mp hnd).1
      have hndtail : (gs.map (fun g => g.id)).Nodup := (List.nodup_cons.mp hnd).2
      have hfind : st.groups.find? (fun g => g.gid == gid0) = some g0 := by
        rw [hgs]
        exact List.find?_cons_of_pos _ (by simp [hgid0])
      have hgroups1 : st.groups.filter (fun x => x.id != g0.id) = gs := by
        rw [hgs, List.filter_cons]
        rw [if_neg (by simp)]
        apply List.filter_eq_self.mpr
        intro x hx
        simp only [bne_iff_ne, ne_eq]
        intro hcontra
        exact hnotin (hcontra ▸ List.mem_map_of_mem (fun g => g.id) hx)
      have hrm : removeGroup st gid0 = .ok ⟨st.users, gs, st.resources,
          st.user_groups.filter (fun m => m.group_id != g0.id),
          st.aces.filter (fun a => a.group_id != some g0.id), st.nextId⟩ := by
        unfold removeGroup
        rw [hfind]
        dsimp only
        rw [hgroups1]
      obtain ⟨st', hfold, hg', hu', hr', hn', hm', ha'⟩ :=
        ih ⟨st.users, gs, st.resources,
            st.user_groups.filter (fun m => m.group_id != g0.id),
            st.aces.filter (fun a => a.group_id != some g0.id), st.nextId⟩ hrest hndtail
      refine ⟨st', ?_, hg', hu', hr', hn', ?_, ?_⟩
      · simp only [txFold, hrm]
        exact hfold
      · intro m hm
        exact List.mem_of_mem_filter (hm' m hm)
      · intro a ha
        exact List.mem_of_mem_filter (ha' a ha)

/-- Removing every discovered rid empties the resources table and deletes
every ACE row that references a removed resource; users, groups and
memberships are untouched. -/
theorem removeResourcesLoop_spec :
    ∀ (l : List String) (st : Store),
      st.resources.map (fun r => r.rid) = l →
      (st.resources.map (fun r => r.id)).Nodup →
      ∃ st', txFold (fun s rid => removeResource s rid) l st = .ok st' ∧
        st'.resources = [] ∧ st'.users = st.users ∧ st'.groups = st.groups ∧
        st'.user_groups = st.user_groups ∧
        (∀ a ∈ st'.aces, a ∈ st.aces ∧
          ∀ rr, a.resource_id = some rr → rr ∉ st.resources.map (fun r => r.id)) := by
  intro l
  induction l with
  | nil =>
    intro st hmap hnd
    have hres : st.resources = [] := List.map_eq_nil_iff.mp hmap
    refine ⟨st, rfl, hres, rfl, rfl, rfl, ?_⟩
    intro a ha
    refine ⟨ha, ?_⟩
    intro rr _
    rw [hres]
    simp
  | cons rid0 rest ih =>
    intro st hmap hnd
    cases hrs : st.resources with
    | nil => rw [hrs] at hmap; exact absurd hmap (by simp)
    | cons r0 rs =>
      rw [hrs, List.map_cons] at hmap
      injection hmap with hrid0 hrest
      rw [hrs, List.map_cons] at hnd
      have hnotin : r0.id ∉ rs.map (fun r => r.id) := (List.nodup_cons.mp hnd).1
      have hndtail : (rs.map (fun r => r.id)).Nodup := (List.nodup_cons.mp hnd).2
      have hfind : st.resources.find? (fun r => r.rid == rid0) = some r0 := by
        rw [hrs]
        exact List.find?_cons_of_pos _ (by simp [hrid0])
      have hres1 : st.resources.filter (fun x => x.id != r0.id) = rs := by
        rw [hrs, List.filter_cons]
        rw [if_neg (by simp)]
        apply List.filter_eq_self.mpr
        intro x hx
        simp only [bne_iff_ne, ne_eq]
        intro hcontra
        exact hnotin (hcontra ▸ List.mem_map_of_mem (fun r => r.id) hx)
      have hrm : removeResource st rid0 = .ok ⟨st.users, st.groups, rs, st.user_groups,
          st.aces.filter (fun a => a.resource_id != some r0.id), st.nextId⟩ := by
        unfold removeResource
        rw [hfind]
        dsimp only
        rw [hres1]
      obtain ⟨st', hfold, hr', hu', hg', hm', ha'⟩ :=
        ih ⟨st.users, st.groups, rs, st.user_groups,
            st.aces.filter (fun a => a.resource_id != some r0.id), st.nextId⟩ hrest hndtail
      refine ⟨st', ?_, hr', hu', hg', hm', ?_⟩
      · simp only [txFold, hrm]
        exact hfold
      · intro a ha
        obtain ⟨ha1, ha2⟩ := ha' a ha
        obtain ⟨ha3, ha4⟩ := List.mem_filter.mp ha1
        refine ⟨ha3, ?_⟩
        intro rr hrr
        simp only [List.map_cons, List.mem_cons, not_or]
        constructor
        · intro hcontra
          subst hcontra
          rw [hrr] at ha4
          simp at ha4
        · exact ha2 rr hrr

/-- From any state satisfying `LoadInv`, the teardown succeeds and leaves all
five tables empty. -/
theorem removeData_spec (st : Store) (hI : LoadInv st) :
    ∃ st', removeData st = .ok st' ∧ st'.users = [] ∧ st'.groups = [] ∧
      st'.resources = [] ∧ st'.user_groups = [] ∧ st'.aces = [] := by
  obtain ⟨st1, h1, hu1, hg1, hr1, hn1, hm1, ha1⟩ :=
    removeUsersLoop_spec (st.users.map (fun u => u.uid)) st rfl hI.usersNodup
  have hug1 : st1.user_groups = [] := by
    rw [List.eq_nil_iff_forall_not_mem]
    intro m hm
    obtain ⟨hmem, hnot⟩ := hm1 m hm
    exact hnot (hI.memberRef m hmem)
  obtain ⟨st2, h2, hg2, hu2, hr2, hn2, hm2, ha2⟩ :=
    removeGroupsLoop_spec (st1.groups.map (fun g => g.gid)) st1 rfl
      (by rw [hg1]; exact hI.groupsNodup)
  have hug2 : st2.user_groups = [] := by
    rw [List.eq_nil_iff_forall_not_mem]
    intro m hm
    have := hm2 m hm
    rw [hug1] at this
    exact absurd this (by simp)
  obtain ⟨st3, h3, hr3, hu3, hg3, hm3, ha3⟩ :=
    removeResourcesLoop_spec (st2.resources.map (fun r => r.rid)) st2 rfl
      (by rw [hr2, hr1]; exact hI.resourcesNodup)
  have haces3 : st3.aces = [] := by
    rw [List.eq_nil_iff_forall_not_mem]
    intro a ha
    obtain ⟨ha2', hexc⟩ := ha3 a ha
    have haorig : a ∈ st.aces := ha1 a (ha2 a ha2')
    obtain ⟨rr, hrr, hrrmem⟩ := hI.aceResourceRef a haorig
    exact hexc rr hrr (by rw [hr2, hr1]; exact hrrmem)
  have hru : removeUsers st = .ok st1 := h1
  have hrg : removeGroups st1 = .ok st2 := h2
  have hrr3 : removeResources st2 = .ok st3 := h3
  refine ⟨st3, ?_, ?_, ?_, hr3, ?_, haces3⟩
  · unfold removeData
    rw [hru]
    dsimp only
    rw [hrg]
    dsimp only
    exact hrr3
  · rw [hu3, hu2, hu1]
  · rw [hg3, hg2]
  · rw [hm3, hug2]

/-- C2: loading any record-count tuple into the empty store and then running
the teardown succeeds and returns the store to the empty pre-load state:
zero rows in users, groups, resources, user_groups and aces. -/
theorem load_teardown_roundtrip :
    ∀ (counts : recordCount) (st : Store),
      prepareData emptyStore counts = .ok st →
      ∃ st', removeData st = .ok st' ∧ st'.users = [] ∧ st'.groups = [] ∧
        st'.resources = [] ∧ st'.user_groups = [] ∧ st'.aces = [] := by
  intro counts st h
  exact removeData_spec st (loadInv_prepareData h emptyStore_loadInv)

/-- C2 witness: the spec's round-trip tuple {users: 2, groups: 1, members: 1,
user-permissions: 1, group-permissions: 1}. -/
theorem load_teardown_roundtrip_witness :
    ∃ st st', prepareData emptyStore ⟨2, 1, 1, 1, 1⟩ = .ok st ∧
      removeData st = .ok st' ∧ st'.users = [] ∧ st'.groups = [] ∧
      st'.resources = [] ∧ st'.user_groups = [] ∧ st'.aces = [] := by
  cases hp : prepareData emptyStore ⟨2, 1, 1, 1, 1⟩ with
  | error e =>
    have hok : (prepareData emptyStore ⟨2, 1, 1, 1, 1⟩).isOk = true := by decide
    rw [hp] at hok
    exact absurd hok (by simp [Except.isOk, Except.toBool])
  | ok st =>
    obtain ⟨st', h1, h2, h3, h4, h5, h6⟩ := load_teardown_roundtrip ⟨2, 1, 1, 1, 1⟩ st hp
    exact ⟨st, st', rfl, h1, h2, h3, h4, h5, h6⟩
